import Mathlib

/-!
# Verification of the spaceDJ spatial selection and label-visibility engine

Shallow embedding of the core components of the spaceDJ repository:

* `SpatialGrid` (src/grid.ts): uniform 3D grid over rational coordinates.
* `cosineDistance` (src/utils.ts): cosine distance over real vectors.
* `PointCloudGenerator.findHighDimensionalNeighbors` and
  `PointCloudGenerator.generatePointCloudData` (src/points.ts).
* `PointSelector` (src/selection.ts): proximity / manual click selection,
  combined weight maps, neighbor recalculation, preservation and restore.
* `LabelRenderer.updateLabelVisibilities` (src/labels.ts).

Conventions of the embedding:

* World coordinates, radii and weights are rationals (`ℚ`); the JS runtime
  uses IEEE doubles, whose idealized arithmetic the rationals model exactly
  for the algebraic structure the theorems are about.  High-dimensional
  cosine geometry, which divides by square roots, is modelled over `ℝ`.
* `Math.sqrt` occurrences that only feed *values* (weights, ranking
  distances) and never affect control flow are modelled by an explicit
  function parameter `sqrtFn : ℚ → ℚ`, mirroring how the value of the
  square root is irrelevant to the structural claims proved here.
* JS `Map`s and plain objects are modelled as association lists in
  insertion order (`Map.set` / object assignment update an existing key in
  place and append a fresh key at the end, exactly as in the runtime).
* Reference equality (`===`) on vectors is modelled by tagging each vector
  with a numeric identity (`id`): distinct allocations get distinct ids.
-/

/-! ## 3D vectors over ℚ (THREE.Vector3 as used by the core) -/

/-- A 3D point/vector with rational coordinates. -/
structure Vec3 where
  x : ℚ
  y : ℚ
  z : ℚ
deriving DecidableEq, Repr

namespace Vec3

/-- Componentwise subtraction (`THREE.Vector3.sub`). -/
def sub (a b : Vec3) : Vec3 := ⟨a.x - b.x, a.y - b.y, a.z - b.z⟩

/-- Dot product (`THREE.Vector3.dot`). -/
def dot (a b : Vec3) : ℚ := a.x * b.x + a.y * b.y + a.z * b.z

/-- Squared Euclidean distance (`THREE.Vector3.distanceToSquared`). -/
def distanceToSquared (a b : Vec3) : ℚ :=
  (a.x - b.x) * (a.x - b.x) + (a.y - b.y) * (a.y - b.y) +
    (a.z - b.z) * (a.z - b.z)

/-- Squared length (`THREE.Vector3.lengthSq`). -/
def lengthSq (a : Vec3) : ℚ := a.x * a.x + a.y * a.y + a.z * a.z

end Vec3

/-! ## The item data model

One visualized point: a point mesh carrying `userData` (label, stable index,
high-dimensional vector) whose parent object holds the world position.  The
parent back-reference is flattened into the record: `position` is the parent
object's world position, which both `SpatialGrid` and `PointSelector` read
through `getWorldPosition`. -/

/-- A point mesh together with the data the core reads from it. -/
structure Mesh where
  index : ℕ
  label : String
  position : Vec3
  vector : List ℚ
deriving DecidableEq, Repr

/-! ## SpatialGrid (src/grid.ts)

The JS class buckets meshes in a `Map<string, Mesh[]>` keyed by
`"${gx}_${gy}_${gz}"`; that string key is a faithful injective rendering of
the integer triple, so the model keys cells by `ℤ × ℤ × ℤ` directly.  A
bucket holds, in insertion order, exactly the meshes whose position hashes
to its key, so the bucket for key `k` of the grid built from `meshes` is
`meshes.filter (cell key = k)`; `build` is modelled by that characterization
and the grid state is the mesh list it was built from. -/

namespace SpatialGrid

/-- `GRID_SIZE` (world units). -/
def GRID_SIZE : ℚ := 5

/-- `getKey`: floor-divide each axis by the cell size. -/
def getKey (position : Vec3) : ℤ × ℤ × ℤ :=
  (⌊position.x / GRID_SIZE⌋, ⌊position.y / GRID_SIZE⌋, ⌊position.z / GRID_SIZE⌋)

/-- The bucket a built grid stores under key `k`: the meshes pushed there by
`build`, in insertion order. -/
def bucket (meshes : List Mesh) (k : ℤ × ℤ × ℤ) : List Mesh :=
  meshes.filter (fun m => getKey m.position = k)

/-- The inclusive integer range `[lo, hi]` visited by a `for` loop. -/
def intRange (lo hi : ℤ) : List ℤ :=
  (List.range (hi + 1 - lo).toNat).map (fun (n : ℕ) => lo + (n : ℤ))

/-- `query`: visit every cell intersecting the axis-aligned box
`[position - radius, position + radius]`, and keep the bucketed meshes whose
exact squared distance to `position` is below `radius²`. -/
def query (meshes : List Mesh) (position : Vec3) (radius : ℚ) : List Mesh :=
  let radiusSq := radius * radius
  let minX := ⌊(position.x - radius) / GRID_SIZE⌋
  let maxX := ⌊(position.x + radius) / GRID_SIZE⌋
  let minY := ⌊(position.y - radius) / GRID_SIZE⌋
  let maxY := ⌊(position.y + radius) / GRID_SIZE⌋
  let minZ := ⌊(position.z - radius) / GRID_SIZE⌋
  let maxZ := ⌊(position.z + radius) / GRID_SIZE⌋
  (intRange minX maxX).flatMap (fun i =>
    (intRange minY maxY).flatMap (fun j =>
      (intRange minZ maxZ).flatMap (fun k =>
        (bucket meshes (i, j, k)).filter (fun m =>
          position.distanceToSquared m.position < radiusSq))))

end SpatialGrid

/-! ## Association-list maps

Model of JS `Map` objects (and of plain objects used as string-keyed
dictionaries): an association list in insertion order.  `set` updates an
existing key in place and appends a fresh key at the end; `get` looks the
key up; `keys` lists keys in insertion order — exactly the observable
behavior of the runtime structures. -/

namespace AssocMap

/-- `Map.get` / property read: the stored value, if the key is present. -/
def get [DecidableEq κ] (m : List (κ × α)) (k : κ) : Option α :=
  (m.find? (fun e => decide (e.1 = k))).map (fun e => e.2)

/-- `Map.set` / property write: overwrite in place, or append a new entry. -/
def set [DecidableEq κ] (m : List (κ × α)) (k : κ) (v : α) : List (κ × α) :=
  if m.any (fun e => decide (e.1 = k)) then
    m.map (fun e => if e.1 = k then (k, v) else e)
  else m ++ [(k, v)]

/-- Iteration order of keys (`Map.keys` / `for...in`). -/
def keys (m : List (κ × α)) : List κ := m.map (fun e => e.1)

end AssocMap

/-! ## cosineDistance (src/utils.ts)

`cosineDistance(vecA, vecB)` over ideal reals.  The JS dot product
`vecA.reduce((sum, a, i) => sum + a * vecB[i], 0)` is a left fold; over the
ideal reals used here it equals the structural recursion below whenever the
vectors have equal length (the only case the spec speaks about). -/

/-- `A·B`: sum of componentwise products. -/
def dotProduct : List ℝ → List ℝ → ℝ
  | a :: as, b :: bs => a * b + dotProduct as bs
  | _, _ => 0

/-- Sum of squared components (the radicand of a magnitude). -/
def sumOfSquares : List ℝ → ℝ
  | [] => 0
  | a :: as => a * a + sumOfSquares as

/-- `Math.sqrt(v.reduce((sum, a) => sum + a * a, 0))`. -/
noncomputable def magnitude (v : List ℝ) : ℝ := Real.sqrt (sumOfSquares v)

/-- `cosineDistance`: `1 - (A·B)/(|A||B|)`, with an explicit guard that
returns exactly 1 when either magnitude is zero. -/
noncomputable def cosineDistance (vecA vecB : List ℝ) : ℝ :=
  if magnitude vecA = 0 ∨ magnitude vecB = 0 then 1
  else 1 - dotProduct vecA vecB / (magnitude vecA * magnitude vecB)

/-! ## PointCloudGenerator.findHighDimensionalNeighbors (src/points.ts)

The TS loop compares vectors by reference: it skips a candidate exactly
when `primaryVectors === allVectors && primaryVector === pointVector`.
Reference identity is made explicit in the embedding: each vector
allocation carries a numeric `id` (distinct allocations have distinct
ids), and list identity of the two arguments is the boolean `sameList`
(true exactly when the caller passes the same array object twice). -/

/-- A high-dimensional vector object: allocation identity plus contents. -/
structure HDVector where
  id : ℕ
  data : List ℝ

/-- One candidate-entry update of the neighbor map: the effect on the value
stored at a candidate `point` of comparing it against one `primaryVector`.
This is the per-key view of the inner loop body below. -/
noncomputable def neighborUpdate (sameList : Bool) (neighborRadius : ℝ)
    (primaryVector point : HDVector) (prev : Option ℝ) : Option ℝ :=
  if sameList = true ∧ primaryVector.id = point.id then prev
  else
    let distance := cosineDistance primaryVector.data point.data
    if distance ≤ neighborRadius then
      match prev with
      | none => some distance
      | some existingDistance =>
        if distance < existingDistance then some distance
        else some existingDistance
    else prev

/-- Body of the inner `for (const [i, pointVector] of allVectors.entries())`
loop: one comparison of `primaryVector` against the candidate at index
`ip.1`. -/
noncomputable def findNeighborsInnerBody (sameList : Bool)
    (neighborRadius : ℝ) (primaryVector : HDVector) (acc2 : List (ℕ × ℝ))
    (ip : ℕ × HDVector) : List (ℕ × ℝ) :=
  if sameList = true ∧ primaryVector.id = ip.2.id then acc2
  else
    let distance := cosineDistance primaryVector.data ip.2.data
    if distance ≤ neighborRadius then
      match AssocMap.get acc2 ip.1 with
      | none => AssocMap.set acc2 ip.1 distance
      | some existingDistance =>
        if distance < existingDistance then AssocMap.set acc2 ip.1 distance
        else acc2
    else acc2

/-- `findHighDimensionalNeighbors`: for every primary vector and every
candidate (with its array index), record the smallest cosine distance seen,
restricted to distances within `neighborRadius`; skip the self comparison
when scanning one's own list. -/
noncomputable def findHighDimensionalNeighbors
    (primaryVectors allVectors : List HDVector) (sameList : Bool)
    (neighborRadius : ℝ) : List (ℕ × ℝ) :=
  primaryVectors.foldl (fun acc primaryVector =>
    allVectors.enum.foldl
      (findNeighborsInnerBody sameList neighborRadius primaryVector) acc) []

/-- The skip condition of the scan: the candidate is compared by reference
(`===`) and skipped exactly when the two list arguments are the same array
and the candidate is the very same vector object as the primary. -/
def neighborSkip (sameList : Bool) (primaryVector point : HDVector) : Prop :=
  sameList = true ∧ primaryVector.id = point.id

/-- What the neighbor map must hold at a candidate `c` after scanning the
primaries `l`: either no entry, and then every scanned primary was either
the skipped self comparison or strictly out of radius; or an entry `d`,
and then `d` is within the radius, is attained by some non-skipped primary,
and is a lower bound of all non-skipped primaries' distances to `c` (i.e.
the minimum cosine distance over the primary vectors). -/
def neighborAccSpec (sameList : Bool) (neighborRadius : ℝ) (c : HDVector)
    (l : List HDVector) : Option ℝ → Prop
  | none => ∀ p ∈ l, neighborSkip sameList p c ∨
      neighborRadius < cosineDistance p.data c.data
  | some d => d ≤ neighborRadius ∧
      (∃ p ∈ l, ¬neighborSkip sameList p c ∧
        cosineDistance p.data c.data = d) ∧
      ∀ p ∈ l, ¬neighborSkip sameList p c → d ≤ cosineDistance p.data c.data

/-! ## PointSelector (src/selection.ts)

State and operations of the selection engine.  Modelling decisions:

* The generator dependency is injected exactly as in the source: the class
  receives `pointCloudGenerator` and only calls its
  `findHighDimensionalNeighbors`; the model takes that method as a function
  parameter `findHDN` over the rational world of the selector.
* `pointCloud` is the current `getPointCloud()` result: `none` before any
  projection, otherwise the cloud's mesh list (`getPointMeshes()`).
* `THREE.Ray.distanceSqToPoint` is used by the source with a normalized
  direction `d = w/|w|`; for the unnormalized carrier `w` the same quantity
  equals `|v|² - (v·w)²/|w|²` when `(v·w) ≥ 0` (and the distance to the
  origin when `(v·w) < 0` or `w = 0`, the latter matching `normalize()` of
  the zero vector returning the zero vector).  The model computes that
  algebraically identical square-root-free form over ℚ.
* `Math.sqrt` feeding weight values is the oracle parameter `sqrtFn`. -/

/-- A ray built from an origin and the vector handed to `normalize()`. -/
structure Ray where
  origin : Vec3
  direction : Vec3

/-- `THREE.Ray.distanceSqToPoint`, in the square-root-free form described
above. -/
def Ray.distanceSqToPoint (ray : Ray) (point : Vec3) : ℚ :=
  let w := ray.direction
  let v := point.sub ray.origin
  if Vec3.lengthSq w = 0 then point.distanceToSquared ray.origin
  else if Vec3.dot v w < 0 then point.distanceToSquared ray.origin
  else Vec3.lengthSq v - Vec3.dot v w * Vec3.dot v w / Vec3.lengthSq w

/-- The runtime-mutable options object of `PointSelector`. -/
structure SelectorOptions where
  threeDClickRadius : ℚ
  cameraProximityRadius : ℚ
  neighborRadius : ℚ
  includeHighDimensionalNeighbors : Bool

/-- `ManualSelectionState`. -/
structure ManualSelectionState where
  primaryMeshes : List Mesh
  selectionWeights : List (String × ℚ)
  directlyClickedMesh : Option Mesh
  neighborDistances : List (ℕ × ℚ)

/-- `PreservedManualSelection`. -/
structure PreservedManualSelection where
  primaryLabels : List String
  clickedLabel : Option String
  weights : List (String × ℚ)

/-- The mutable fields of `PointSelector`. -/
structure PointSelectorState where
  manualSelectionState : Option ManualSelectionState
  proximityMeshes : List Mesh
  proximityWeights : List (String × ℚ)

/-- The injected `pointCloudGenerator.findHighDimensionalNeighbors`
signature, over the selector's rational world: primary vectors, all
vectors, neighbor radius, to an index-to-distance map. -/
abbrev FindNeighborsFn := List (List ℚ) → List (List ℚ) → ℚ → List (ℕ × ℚ)

/-- The body of both radius-scan loops of `selectByClick`: walk the point
meshes, collect those within `radius` of the ray (by point-to-ray
distance), and give each a normalized weight
`1 - min(distance, radius)/radius`. -/
def scanRay (sqrtFn : ℚ → ℚ) (radius : ℚ) (searchRay : Ray)
    (meshes : List Mesh) : List Mesh × List (String × ℚ) :=
  meshes.foldl (fun acc mesh =>
    let distanceToRaySq := searchRay.distanceSqToPoint mesh.position
    if distanceToRaySq < radius * radius then
      let distance := sqrtFn distanceToRaySq
      let normalizedWeight := 1 - min distance radius / radius
      (acc.1 ++ [mesh], AssocMap.set acc.2 mesh.label normalizedWeight)
    else acc) ([], [])

/-- Body of the `for (const [index, distance] of neighborDistances)` loop
of `addNeighborsToWeights`: one neighbor entry fills its mesh's label with
a normalized weight, but only when the label is not already present. -/
def addNeighborStep (options : SelectorOptions) (meshes : List Mesh)
    (weights : List (String × ℚ)) (e : ℕ × ℚ) : List (String × ℚ) :=
  match meshes[e.1]? with
  | none => weights
  | some neighborMesh =>
    if AssocMap.get weights neighborMesh.label = none then
      let normalizedWeight :=
        1 - min e.2 options.neighborRadius / options.neighborRadius
      AssocMap.set weights neighborMesh.label normalizedWeight
    else weights

/-- `addNeighborsToWeights`: fold derived neighbor weights into a weight
map, but only for labels not already present (key presence, not magnitude,
is the filter). -/
def addNeighborsToWeights (options : SelectorOptions)
    (pointCloud : Option (List Mesh)) (neighborDistances : List (ℕ × ℚ))
    (selectionWeights : List (String × ℚ)) : List (String × ℚ) :=
  if ¬ options.includeHighDimensionalNeighbors then selectionWeights
  else match pointCloud with
  | none => selectionWeights
  | some meshes =>
    neighborDistances.foldl (addNeighborStep options meshes)
      selectionWeights

/-- The tail of `selectByClick` shared by all branches: clear the manual
selection when the scan collected nothing, otherwise derive the neighbor
map (when enabled), fold it into the selection weights, and store the new
manual selection state. -/
def finishClick (findHDN : FindNeighborsFn) (options : SelectorOptions)
    (meshes : List Mesh) (s : PointSelectorState)
    (scanned : List Mesh × List (String × ℚ) × Option Mesh) :
    PointSelectorState :=
  let primaryMeshes := scanned.1
  let selectionWeights := scanned.2.1
  let directlyClickedMesh := scanned.2.2
  if primaryMeshes.isEmpty then
    { s with manualSelectionState := none }
  else
    let neighborDistances :=
      if options.includeHighDimensionalNeighbors then
        findHDN (primaryMeshes.map (fun m => m.vector))
          (meshes.map (fun m => m.vector)) options.neighborRadius
      else []
    let selectionWeights2 :=
      if options.includeHighDimensionalNeighbors then
        addNeighborsToWeights options (some meshes) neighborDistances
          selectionWeights
      else selectionWeights
    { s with manualSelectionState :=
        (some ⟨primaryMeshes, selectionWeights2, directlyClickedMesh,
          neighborDistances⟩) }

/-- `selectByClick`.  `intersected` is the outcome of
`raycaster.intersectObjects` against the point cloud's own group:
`none` when the ray hit nothing, `some none` when the first hit failed the
`instanceof Mesh && userData.vector` check, and `some (some target)` when a
point mesh was hit directly. -/
def selectByClick (findHDN : FindNeighborsFn) (sqrtFn : ℚ → ℚ)
    (intersected : Option (Option Mesh)) (clickRay : Ray)
    (cameraPosition : Vec3) (pointCloud : Option (List Mesh))
    (options : SelectorOptions) (s : PointSelectorState) :
    PointSelectorState :=
  let radius := options.threeDClickRadius
  match pointCloud with
  | none => s
  | some meshes =>
    let scanned : List Mesh × List (String × ℚ) × Option Mesh :=
      match intersected with
      | some (some targetMesh) =>
        let centerPosition := targetMesh.position
        let searchRay : Ray :=
          ⟨cameraPosition, centerPosition.sub cameraPosition⟩
        let sc := scanRay sqrtFn radius searchRay meshes
        (sc.1, sc.2, some targetMesh)
      | some none => ([], [], none)
      | none =>
        let sc := scanRay sqrtFn radius clickRay meshes
        (sc.1, sc.2, none)
    finishClick findHDN options meshes s scanned

/-- `updateProximitySelection`: reset the proximity state, then refill it
from a spatial-grid query around `position`. -/
def updateProximitySelection (sqrtFn : ℚ → ℚ) (position : Vec3)
    (pointCloud : Option (List Mesh)) (options : SelectorOptions)
    (s : PointSelectorState) : PointSelectorState :=
  let cleared : PointSelectorState :=
    { s with proximityMeshes := [], proximityWeights := [] }
  match pointCloud with
  | none => cleared
  | some meshes =>
    let radius := options.cameraProximityRadius
    let nearbyMeshes := SpatialGrid.query meshes position radius
    nearbyMeshes.foldl (fun st mesh =>
      let distanceSq := position.distanceToSquared mesh.position
      if distanceSq < radius * radius then
        let normalizedWeight := 1 - min (sqrtFn distanceSq) radius / radius
        { st with
          proximityWeights :=
            AssocMap.set st.proximityWeights mesh.label normalizedWeight,
          proximityMeshes := st.proximityMeshes ++ [mesh] }
      else st) cleared

/-- Body of the `for (const label in selectionWeights)` loop of
`getCombinedWeights`: one manual entry raises the combined weight at its
label when absent or strictly smaller.  The manual weights object has
unique keys, so iterating its keys and reading each value is iterating its
entries. -/
def mergeManualWeight (cw : List (String × ℚ)) (e : String × ℚ) :
    List (String × ℚ) :=
  let manualWeight := e.2
  match AssocMap.get cw e.1 with
  | none => AssocMap.set cw e.1 manualWeight
  | some existing =>
    if manualWeight > existing then AssocMap.set cw e.1 manualWeight
    else cw

/-- `getCombinedWeights`: copy the proximity weights; raise each label
mentioned by the manual selection weights to the larger of the two values
(strictly larger manual values overwrite, the body of the `for...in` loop
being `mergeManualWeight`); then, if neighbor inclusion is on, gap-fill
labels from the manual selection's neighbor map. -/
def getCombinedWeights (pointCloud : Option (List Mesh))
    (options : SelectorOptions) (s : PointSelectorState) :
    List (String × ℚ) :=
  let combinedWeights := s.proximityWeights
  match s.manualSelectionState with
  | none => combinedWeights
  | some st =>
    let merged := st.selectionWeights.foldl mergeManualWeight combinedWeights
    if options.includeHighDimensionalNeighbors then
      addNeighborsToWeights options pointCloud st.neighborDistances merged
    else merged

/-- `recalculateNeighbors`. -/
def recalculateNeighbors (findHDN : FindNeighborsFn)
    (pointCloud : Option (List Mesh)) (options : SelectorOptions)
    (s : PointSelectorState) : PointSelectorState :=
  match s.manualSelectionState with
  | none => s
  | some st =>
    if ¬ options.includeHighDimensionalNeighbors then
      { s with manualSelectionState :=
          (some { st with neighborDistances := ([] : List (ℕ × ℚ)) }) }
    else match pointCloud with
    | none => s
    | some meshes =>
      let newDistances := findHDN (st.primaryMeshes.map (fun m => m.vector))
        (meshes.map (fun m => m.vector)) options.neighborRadius
      { s with manualSelectionState :=
          (some { st with neighborDistances := newDistances }) }

/-- `hasManualSelection`. -/
def hasManualSelection (s : PointSelectorState) : Bool :=
  s.manualSelectionState.isSome

/-- `getPreservedManualSelection`. -/
def getPreservedManualSelection (s : PointSelectorState) :
    Option PreservedManualSelection :=
  s.manualSelectionState.map (fun st =>
    ⟨st.primaryMeshes.map (fun m => m.label),
      st.directlyClickedMesh.map (fun m => m.label),
      st.selectionWeights⟩)

/-- Body of the restore loop over the fresh cloud: push a mesh whose label
is preserved, and remember the (last) mesh matching the clicked label. -/
def restoreScanStep (preserved : PreservedManualSelection)
    (acc : List Mesh × Option Mesh) (mesh : Mesh) :
    List Mesh × Option Mesh :=
  (if preserved.primaryLabels.contains mesh.label then acc.1 ++ [mesh]
   else acc.1,
   if some mesh.label = preserved.clickedLabel then some mesh
   else acc.2)

/-- `restoreManualSelection`: one pass over the fresh point cloud collects
the meshes whose label is preserved (in cloud order) and the last mesh
matching the preserved clicked label; a non-empty match list replaces the
manual selection, an empty one leaves the state untouched. -/
def restoreManualSelection (findHDN : FindNeighborsFn)
    (preserved : PreservedManualSelection) (pointCloud : List Mesh)
    (options : SelectorOptions) (s : PointSelectorState) :
    PointSelectorState :=
  let scan := pointCloud.foldl (restoreScanStep preserved) ([], none)
  let newPrimaryMeshes := scan.1
  let newClickedMesh := scan.2
  if newPrimaryMeshes.isEmpty then s
  else
    let neighborDistances :=
      if options.includeHighDimensionalNeighbors then
        findHDN (newPrimaryMeshes.map (fun m => m.vector))
          (pointCloud.map (fun m => m.vector)) options.neighborRadius
      else []
    { s with manualSelectionState :=
        (some ⟨newPrimaryMeshes, preserved.weights, newClickedMesh,
          neighborDistances⟩) }

/-- The operations of the engine the clicked-in-primary invariant is
claimed over: a click (with the raycast outcome against the point cloud)
and a restore-after-reprojection (which, as in `renderSpace`, feeds the
engine's own preserved selection to `restoreManualSelection` against a
fresh cloud, and is skipped when there is nothing preserved). -/
inductive SelectorOp where
  | click (intersected : Option (Option Mesh)) (clickRay : Ray)
      (cameraPosition : Vec3) (pointCloud : Option (List Mesh))
  | restore (pointCloud : List Mesh)

/-- One operation applied to the selector state. -/
def stepSelector (findHDN : FindNeighborsFn) (sqrtFn : ℚ → ℚ)
    (options : SelectorOptions) (op : SelectorOp) (s : PointSelectorState) :
    PointSelectorState :=
  match op with
  | .click intersected clickRay cameraPosition pointCloud =>
    selectByClick findHDN sqrtFn intersected clickRay cameraPosition
      pointCloud options s
  | .restore pointCloud =>
    match getPreservedManualSelection s with
    | none => s
    | some preserved =>
      restoreManualSelection findHDN preserved pointCloud options s

/-- A directly-hit mesh comes from the raycast against the point cloud's
own group, so it is one of the cloud's meshes. -/
def opWellFormed : SelectorOp → Prop
  | .click (some (some targetMesh)) _ _ (some meshes) => targetMesh ∈ meshes
  | _ => True

/-- The invariant of C9: whenever a manual selection exists and its
directly-clicked item is present, that item is in the manual primary set. -/
def clickedInPrimary (s : PointSelectorState) : Prop :=
  ∀ st, s.manualSelectionState = some st →
    ∀ c, st.directlyClickedMesh = some c → c ∈ st.primaryMeshes

/-- The squared point-to-ray distance `selectByClick` tests a mesh against:
the search ray through the directly-hit item's center in the hit branch,
the click ray itself otherwise. -/
def clickScanDistanceSq (intersected : Option (Option Mesh))
    (clickRay : Ray) (cameraPosition : Vec3) (m : Mesh) : ℚ :=
  match intersected with
  | some (some targetMesh) =>
    (Ray.mk cameraPosition
      (targetMesh.position.sub cameraPosition)).distanceSqToPoint m.position
  | _ => clickRay.distanceSqToPoint m.position

/-- The gap-fill value the neighbor map contributes for a label: the
normalized weight of the first neighbor entry whose mesh carries that
label (labels are unique within a projection, so at most one entry is
relevant). -/
def claimNeighborFill (options : SelectorOptions) (meshes : List Mesh)
    (neighborDistances : List (ℕ × ℚ)) (label : String) : Option ℚ :=
  (neighborDistances.find? (fun e =>
    match meshes[e.1]? with
    | some nm => decide (nm.label = label)
    | none => false)).map (fun e =>
      1 - min e.2 options.neighborRadius / options.neighborRadius)

/-- The per-label weight the *claim* (C1) asserts `getCombinedWeights`
computes: the maximum of the proximity weight, manual weight, and
neighbor-derived weight, a missing source contributing 0, and absence only
when no source mentions the label. -/
def claimCombinedWeight (pointCloud : Option (List Mesh))
    (options : SelectorOptions) (s : PointSelectorState) (label : String) :
    Option ℚ :=
  let prox := AssocMap.get s.proximityWeights label
  let man := s.manualSelectionState.bind
    (fun st => AssocMap.get st.selectionWeights label)
  let neigh : Option ℚ :=
    match s.manualSelectionState, pointCloud with
    | some st, some meshes =>
      if options.includeHighDimensionalNeighbors then
        claimNeighborFill options meshes st.neighborDistances label
      else none
    | _, _ => none
  match prox, man, neigh with
  | none, none, none => none
  | _, _, _ =>
    some (max (prox.getD 0) (max (man.getD 0) (neigh.getD 0)))

/-- The per-label weight `getCombinedWeights` actually computes (the
amended C1): the maximum of proximity and manual weights when either
mentions the label, and the neighbor-derived fill only when neither does. -/
def combinedWeightSpec (pointCloud : Option (List Mesh))
    (options : SelectorOptions) (s : PointSelectorState) (label : String) :
    Option ℚ :=
  let prox := AssocMap.get s.proximityWeights label
  let man := s.manualSelectionState.bind
    (fun st => AssocMap.get st.selectionWeights label)
  match prox, man with
  | some pw, some mw => some (max pw mw)
  | some pw, none => some pw
  | none, some mw => some mw
  | none, none =>
    match s.manualSelectionState, pointCloud with
    | some st, some meshes =>
      if options.includeHighDimensionalNeighbors then
        claimNeighborFill options meshes st.neighborDistances label
      else none
    | _, _ => none

/-! ### PointCloudGenerator selection (points.ts)

`shuffleEmbeddings` performs an in-place Fisher–Yates pass driven by the
seeded `rngFn`; we model the rng as a stream `ℕ → ℚ` of values in `[0,1)`
together with a cursor that advances one position per call.
`generateSelectedEmbeddings` models the selection logic of
`generatePointCloudData` (the portion that decides which labelled
embeddings are rendered); the UMAP projection downstream of it is out of
scope. -/

/-- Swap the elements at positions `i` and `j`
(`[a[i], a[j]] = [a[j], a[i]]`); out-of-range indices leave the list
unchanged, matching the in-range use in the source. -/
def listSwap {α : Type} (l : List α) (i j : ℕ) : List α :=
  match l.get? i, l.get? j with
  | some a, some b => (l.set i b).set j a
  | _, _ => l

/-- The Fisher–Yates loop of `shuffleEmbeddings`: for `i` from
`length - 1` down to `1`, draw `j = floor(rng() * (i + 1))` and swap
positions `i` and `j`.  The first argument is the loop counter `i`; the
accumulator carries the list and the rng cursor. -/
def shuffleAux (rng : ℕ → ℚ) :
    ℕ → List (String × List ℚ) × ℕ → List (String × List ℚ) × ℕ
  | 0, acc => acc
  | m + 1, (l, k) =>
    shuffleAux rng m
      (listSwap l (m + 1) (Int.toNat (Int.floor (rng k * ((m : ℚ) + 2)))),
        k + 1)

/-- `PointCloudGenerator.shuffleEmbeddings`. -/
def shuffleEmbeddings (rng : ℕ → ℚ) (embeddings : List (String × List ℚ))
    (k : ℕ) : List (String × List ℚ) × ℕ :=
  shuffleAux rng (embeddings.length - 1) (embeddings, k)

/-- The truncate/gap-fill tail of `generatePointCloudData` (lines
90–101 of points.ts), applied after the empty-selection branch has run:
`all1` is the embeddings cache (post-shuffle when the previous selection
was empty), `s1` the selection so far, `k1` the rng cursor.  A too-long
selection is truncated; a too-short one is extended with the first
missing-count entries of the cache whose labels are unused, shuffled
among themselves. -/
def selectTail (rng : ℕ → ℚ) (pointCount : ℕ)
    (all1 s1 : List (String × List ℚ)) (k1 : ℕ) :
    List (String × List ℚ) × ℕ :=
  if pointCount < s1.length then (s1.take pointCount, k1)
  else if s1.length < pointCount then
    let selectedLabels := s1.map Prod.fst
    let newEmbeddings :=
      (all1.filter (fun e => ! selectedLabels.contains e.1)).take
        (pointCount - s1.length)
    let sh2 := shuffleEmbeddings rng newEmbeddings k1
    (s1 ++ sh2.1, sh2.2)
  else (s1, k1)

/-- The selected-embeddings logic of `generatePointCloudData` (lines
80–101 of points.ts): start from the previous selection; if it is empty,
shuffle the whole cache and take the first `pointCount`; then apply the
truncate/gap-fill tail. -/
def generateSelectedEmbeddings (rng : ℕ → ℚ) (k : ℕ) (pointCount : ℕ)
    (embeddingsCache currentSelectedEmbeddings : List (String × List ℚ)) :
    List (String × List ℚ) × ℕ :=
  if currentSelectedEmbeddings.length = 0 then
    let sh := shuffleEmbeddings rng embeddingsCache k
    selectTail rng pointCount sh.1 (sh.1.take pointCount) sh.2
  else selectTail rng pointCount embeddingsCache currentSelectedEmbeddings k

/-- The gap-fill behaviour claimed by the spec for a too-small previous
selection: the additional items are DRAWN from the unused pool via a
seeded shuffle — i.e. the whole unused pool is shuffled first and the
needed number of items is then taken from its front.  (The source instead
takes the first needed entries of the pool in cache order and only
shuffles that slice.) -/
def specSelectTail (rng : ℕ → ℚ) (pointCount : ℕ)
    (all1 s1 : List (String × List ℚ)) (k1 : ℕ) :
    List (String × List ℚ) × ℕ :=
  if pointCount < s1.length then (s1.take pointCount, k1)
  else if s1.length < pointCount then
    let selectedLabels := s1.map Prod.fst
    let pool := all1.filter (fun e => ! selectedLabels.contains e.1)
    let sh2 := shuffleEmbeddings rng pool k1
    (s1 ++ sh2.1.take (pointCount - s1.length), sh2.2)
  else (s1, k1)

/-- The selection logic as the spec words it: identical to
`generateSelectedEmbeddings` except that the gap-fill draws shuffled
items from the whole unused pool. -/
def specGenerateSelectedEmbeddings (rng : ℕ → ℚ) (k : ℕ) (pointCount : ℕ)
    (embeddingsCache currentSelectedEmbeddings : List (String × List ℚ)) :
    List (String × List ℚ) × ℕ :=
  if currentSelectedEmbeddings.length = 0 then
    let sh := shuffleEmbeddings rng embeddingsCache k
    specSelectTail rng pointCount sh.1 (sh.1.take pointCount) sh.2
  else specSelectTail rng pointCount embeddingsCache currentSelectedEmbeddings k

/-! ### LabelRenderer (labels.ts)

THREE-dependent geometry is abstracted into a `LabelEnv` of oracles: the
scene-graph parent test, the occlusion raycast (distance of the first hit
against the occlusion hull, if any), the frustum test, and the square
root used for camera distances.  The cone tangent
`Math.tan(degToRad(labelSelectionConeDegrees))` enters as the
pre-computed rational `labelSelectionAngleTan`.  The visible-label set is
carried as a list; the source's `Set` of meshes corresponds to its
members. -/

structure LabelEnv where
  hasParent : Mesh → Bool
  occluderHit : Mesh → Option ℚ
  sqrtFn : ℚ → ℚ
  inFrustum : Vec3 → Bool
  cameraPosition : Vec3
  coneApex : Vec3
  coneAxis : Vec3
  labelSelectionAngleTan : ℚ
  labelSelectionConeHeight : ℚ

/-- `LabelRenderer.isOccluded`: a parentless mesh counts as occluded;
otherwise the mesh is occluded iff the occlusion raycast hits something
strictly closer than the camera distance minus the 0.05 epsilon. -/
def isOccluded (env : LabelEnv) (m : Mesh) : Bool :=
  if env.hasParent m then
    match env.occluderHit m with
    | none => false
    | some d =>
      decide (d < env.sqrtFn (m.position.distanceToSquared env.cameraPosition)
        - 1/20)
  else true

/-- Ordering of label candidates used by `candidates.sort((a, b) =>
a.distance - b.distance)`: ascending camera distance. -/
def distLE (a b : Mesh × ℚ) : Prop := a.2 ≤ b.2

instance : DecidableRel distLE := fun a b => inferInstanceAs (Decidable (a.2 ≤ b.2))

instance : IsTotal (Mesh × ℚ) distLE := ⟨fun a b => le_total a.2 b.2⟩

instance : IsTrans (Mesh × ℚ) distLE := ⟨fun _ _ _ => le_trans⟩

/-- One iteration of the candidate loop in `updateLabelVisibilities`:
skip highlighted and parentless meshes, require the frustum test, the
forward-cone test (`0 < projection < coneHeight` and squared distance to
the axis below the squared cone radius at that projection), and
non-occlusion; a surviving mesh is paired with its camera distance. -/
def labelCandidate (env : LabelEnv) (highlightedObjects : List Mesh)
    (m : Mesh) : Option (Mesh × ℚ) :=
  if m ∈ highlightedObjects then none
  else if env.hasParent m then
    if env.inFrustum m.position then
      let toPoint := m.position.sub env.coneApex
      let projection := toPoint.dot env.coneAxis
      if 0 < projection ∧ projection < env.labelSelectionConeHeight then
        let radiusAtProjection := projection * env.labelSelectionAngleTan
        let distanceToAxisSq := toPoint.lengthSq - projection * projection
        if distanceToAxisSq < radiusAtProjection * radiusAtProjection then
          if isOccluded env m then none
          else
            some (m,
              env.sqrtFn (m.position.distanceToSquared env.cameraPosition))
        else none
      else none
    else none
  else none

/-- The candidate list built by the loop, in `pointMeshes` order. -/
def labelCandidates (env : LabelEnv)
    (pointMeshes highlightedObjects : List Mesh) : List (Mesh × ℚ) :=
  pointMeshes.filterMap (labelCandidate env highlightedObjects)

/-- The candidate list sorted by camera distance ascending (the source
uses the stable JS array sort; insertion sort is likewise stable). -/
def labelSorted (env : LabelEnv)
    (pointMeshes highlightedObjects : List Mesh) : List (Mesh × ℚ) :=
  (labelCandidates env pointMeshes highlightedObjects).insertionSort distLE

/-- `LabelRenderer.updateLabelVisibilities`, returning the new
`pointsWithVisibleLabels` set (as a list).  Throttled runs — `!force`
and `frameCount % labelUpdateThrottle !== 0`, which in JS also covers a
zero throttle via NaN — leave the previous set unchanged.  Otherwise the
visible set is the nearest `maxInViewLabels` sorted candidates plus every
non-occluded highlighted mesh. -/
def updateLabelVisibilities (env : LabelEnv)
    (pointMeshes highlightedObjects : List Mesh)
    (frameCount labelUpdateThrottle maxInViewLabels : ℕ) (force : Bool)
    (prevVisible : List Mesh) : List Mesh :=
  if force = false ∧
      (labelUpdateThrottle = 0 ∨ frameCount % labelUpdateThrottle ≠ 0) then
    prevVisible
  else
    let inViewMeshes :=
      ((labelSorted env pointMeshes highlightedObjects).take
        maxInViewLabels).map Prod.fst
    let highlightedNotOccluded :=
      highlightedObjects.filter (fun m => ! isOccluded env m)
    inViewMeshes ++ highlightedNotOccluded

theorem SpatialGrid.mem_intRange {lo hi a : ℤ} :
    a ∈ intRange lo hi ↔ lo ≤ a ∧ a ≤ hi := by
  unfold intRange
  constructor
  · intro h
    obtain ⟨n, hn, rfl⟩ := List.mem_map.mp h
    have := List.mem_range.mp hn
    omega
  · rintro ⟨h1, h2⟩
    exact List.mem_map.mpr
      ⟨(a - lo).toNat, List.mem_range.mpr (by omega), by omega⟩

/-- If a squared deviation is below `radius²` with `radius ≥ 0`, the
deviation itself lies in `[-radius, radius]`. -/
theorem sq_lt_sq_bounds {dx radius : ℚ} (h : dx * dx < radius * radius)
    (hr : 0 ≤ radius) : -radius ≤ dx ∧ dx ≤ radius := by
  constructor <;> nlinarith

/-- A single axis' squared deviation is at most the full squared distance. -/
theorem axis_sq_le_distSq (a b : Vec3) :
    (b.x - a.x) * (b.x - a.x) ≤ a.distanceToSquared b ∧
      (b.y - a.y) * (b.y - a.y) ≤ a.distanceToSquared b ∧
      (b.z - a.z) * (b.z - a.z) ≤ a.distanceToSquared b := by
  unfold Vec3.distanceToSquared
  refine ⟨?_, ?_, ?_⟩ <;> nlinarith [mul_self_nonneg (a.x - b.x),
    mul_self_nonneg (a.y - b.y), mul_self_nonneg (a.z - b.z)]

/-- Exactness of the grid query: for a grid built over `meshes` and any
query point and radius `radius ≥ 0`, a mesh is returned iff it was bucketed
and its Euclidean distance to the query point is strictly below `radius`
(stated on squares, which is equivalent for nonnegative radii). -/
theorem SpatialGrid.mem_query {meshes : List Mesh} {p : Vec3} {radius : ℚ}
    {m : Mesh} (hr : 0 ≤ radius) :
    m ∈ SpatialGrid.query meshes p radius ↔
      m ∈ meshes ∧ p.distanceToSquared m.position < radius * radius := by
  unfold SpatialGrid.query
  simp only [List.mem_flatMap, List.mem_filter, decide_eq_true_eq]
  constructor
  · rintro ⟨i, hi, j, hj, k, hk, hm, hd⟩
    exact ⟨(List.mem_filter.mp hm).1, hd⟩
  · rintro ⟨hm, hd⟩
    have hax := axis_sq_le_distSq p m.position
    have hx := sq_lt_sq_bounds (lt_of_le_of_lt hax.1 hd) hr
    have hy := sq_lt_sq_bounds (lt_of_le_of_lt hax.2.1 hd) hr
    have hz := sq_lt_sq_bounds (lt_of_le_of_lt hax.2.2 hd) hr
    have h5 : (0 : ℚ) < GRID_SIZE := by norm_num [SpatialGrid.GRID_SIZE]
    have hxl : p.x - radius ≤ m.position.x := by linarith [hx.1]
    have hxu : m.position.x ≤ p.x + radius := by linarith [hx.2]
    have hyl : p.y - radius ≤ m.position.y := by linarith [hy.1]
    have hyu : m.position.y ≤ p.y + radius := by linarith [hy.2]
    have hzl : p.z - radius ≤ m.position.z := by linarith [hz.1]
    have hzu : m.position.z ≤ p.z + radius := by linarith [hz.2]
    refine ⟨⌊m.position.x / GRID_SIZE⌋, ?_, ⌊m.position.y / GRID_SIZE⌋, ?_,
      ⌊m.position.z / GRID_SIZE⌋, ?_, ?_, hd⟩
    · exact mem_intRange.mpr
        ⟨Int.floor_le_floor (by gcongr), Int.floor_le_floor (by gcongr)⟩
    · exact mem_intRange.mpr
        ⟨Int.floor_le_floor (by gcongr), Int.floor_le_floor (by gcongr)⟩
    · exact mem_intRange.mpr
        ⟨Int.floor_le_floor (by gcongr), Int.floor_le_floor (by gcongr)⟩
    · exact List.mem_filter.mpr ⟨hm, by simp [SpatialGrid.getKey]⟩

/-- C2: for every finite set of items bucketed by `SpatialGrid.build` and
every query point `p` and radius `r ≥ 0`, `SpatialGrid.query p r` returns
exactly the subset of items whose Euclidean distance to `p` is strictly
less than `r` — no item inside the radius is missed even when it lies in a
neighboring grid cell, and no item at distance `≥ r` is returned.  Stated
on squared distances, which is equivalent for `r ≥ 0`. -/
theorem claim_C2 (meshes : List Mesh) (p : Vec3) (radius : ℚ) (m : Mesh)
    (hr : 0 ≤ radius) :
    m ∈ SpatialGrid.query meshes p radius ↔
      m ∈ meshes ∧ p.distanceToSquared m.position < radius * radius :=
  SpatialGrid.mem_query hr

/-- Witness for C2, the scenario of spec §8: items at (0,0,0) and (3,0,0)
with grid cell size 5; a query at the origin with radius 4 returns the item
at (3,0,0) since its distance 3 is below 4. -/
theorem claim_C2_witness :
    0 ≤ (4 : ℚ) ∧
      ⟨1, "rock", ⟨3, 0, 0⟩, []⟩ ∈
        SpatialGrid.query
          [⟨0, "jazz", ⟨0, 0, 0⟩, []⟩, ⟨1, "rock", ⟨3, 0, 0⟩, []⟩]
          ⟨0, 0, 0⟩ 4 :=
  ⟨by norm_num,
    (claim_C2 [⟨0, "jazz", ⟨0, 0, 0⟩, []⟩, ⟨1, "rock", ⟨3, 0, 0⟩, []⟩]
        ⟨0, 0, 0⟩ 4 ⟨1, "rock", ⟨3, 0, 0⟩, []⟩ (by norm_num)).mpr
      ⟨by simp, by norm_num [Vec3.distanceToSquared]⟩⟩

theorem dotProduct_comm : ∀ A B : List ℝ, dotProduct A B = dotProduct B A := by
  intro A
  induction A with
  | nil => intro B; cases B <;> simp [dotProduct]
  | cons a as ih =>
    intro B
    cases B with
    | nil => simp [dotProduct]
    | cons b bs => simp [dotProduct, ih bs]; ring

theorem dotProduct_self (v : List ℝ) : dotProduct v v = sumOfSquares v := by
  induction v with
  | nil => simp [dotProduct, sumOfSquares]
  | cons a as ih => simp [dotProduct, sumOfSquares, ih]

theorem sumOfSquares_nonneg (v : List ℝ) : 0 ≤ sumOfSquares v := by
  induction v with
  | nil => simp [sumOfSquares]
  | cons a as ih => have := mul_self_nonneg a; simp [sumOfSquares]; linarith

theorem magnitude_nonneg (v : List ℝ) : 0 ≤ magnitude v := Real.sqrt_nonneg _

theorem magnitude_sq (v : List ℝ) : magnitude v * magnitude v = sumOfSquares v :=
  Real.mul_self_sqrt (sumOfSquares_nonneg v)

theorem sumOfSquares_pos {v : List ℝ} (h : ∃ a ∈ v, a ≠ 0) :
    0 < sumOfSquares v := by
  induction v with
  | nil => simp at h
  | cons a as ih =>
    rcases h with ⟨b, hb, hb0⟩
    rcases List.mem_cons.mp hb with rfl | hbs
    · simp only [sumOfSquares]
      nlinarith [sumOfSquares_nonneg as, mul_self_pos.mpr hb0]
    · have := ih ⟨b, hbs, hb0⟩
      simp only [sumOfSquares]
      nlinarith [mul_self_nonneg a]

/-- Cauchy–Schwarz for equal-length lists, in squared form. -/
theorem dotProduct_sq_le : ∀ (A B : List ℝ), A.length = B.length →
    dotProduct A B * dotProduct A B ≤ sumOfSquares A * sumOfSquares B := by
  intro A
  induction A with
  | nil =>
    intro B h
    cases B <;> simp [dotProduct, sumOfSquares] at h ⊢
  | cons a as ih =>
    intro B h
    cases B with
    | nil => simp at h
    | cons b bs =>
      have hlen : as.length = bs.length := by simpa using h
      have hIH := ih bs hlen
      have hsa := sumOfSquares_nonneg as
      have hsb := sumOfSquares_nonneg bs
      simp only [dotProduct, sumOfSquares]
      nlinarith [sq_nonneg (a * b - dotProduct as bs),
        sq_nonneg (a * b + dotProduct as bs),
        sq_nonneg (a * a * sumOfSquares bs - b * b * sumOfSquares as),
        mul_nonneg (mul_self_nonneg a) hsb, mul_nonneg (mul_self_nonneg b) hsa,
        sq_nonneg (a * b), hIH, mul_nonneg hsa hsb]

/-- C5: for all real-valued vectors A and B of equal dimension,
`cosineDistance` is symmetric; `cosineDistance A A = 0` for every non-zero
A; the result is exactly 1 whenever either argument has zero magnitude (no
division by zero); and the result always lies in [0, 2]. -/
theorem claim_C5 (A B : List ℝ) (hlen : A.length = B.length) :
    cosineDistance A B = cosineDistance B A ∧
      ((∃ a ∈ A, a ≠ 0) → cosineDistance A A = 0) ∧
      (magnitude A = 0 ∨ magnitude B = 0 → cosineDistance A B = 1) ∧
      0 ≤ cosineDistance A B ∧ cosineDistance A B ≤ 2 := by
  refine ⟨?_, ?_, ?_, ?_⟩
  · unfold cosineDistance
    by_cases h : magnitude A = 0 ∨ magnitude B = 0
    · rw [if_pos h, if_pos h.symm]
    · rw [if_neg h, if_neg (fun hc => h hc.symm), dotProduct_comm,
        mul_comm (magnitude B) (magnitude A)]
  · intro hA
    have hpos : 0 < sumOfSquares A := sumOfSquares_pos hA
    have hmag : magnitude A ≠ 0 := by
      unfold magnitude
      exact ne_of_gt (Real.sqrt_pos.mpr hpos)
    unfold cosineDistance
    rw [if_neg (by tauto), dotProduct_self, ← magnitude_sq A,
      div_self (mul_ne_zero hmag hmag)]
    ring
  · intro h
    unfold cosineDistance
    rw [if_pos h]
  · by_cases h : magnitude A = 0 ∨ magnitude B = 0
    · unfold cosineDistance
      rw [if_pos h]
      norm_num
    · push_neg at h
      have hA : 0 < magnitude A :=
        lt_of_le_of_ne (magnitude_nonneg A) (Ne.symm h.1)
      have hB : 0 < magnitude B :=
        lt_of_le_of_ne (magnitude_nonneg B) (Ne.symm h.2)
      have hm : 0 < magnitude A * magnitude B := mul_pos hA hB
      have hcs := dotProduct_sq_le A B hlen
      have hsq : magnitude A * magnitude B * (magnitude A * magnitude B) =
          sumOfSquares A * sumOfSquares B := by
        rw [show magnitude A * magnitude B * (magnitude A * magnitude B) =
          (magnitude A * magnitude A) * (magnitude B * magnitude B) by ring,
          magnitude_sq, magnitude_sq]
      have hub : dotProduct A B ≤ magnitude A * magnitude B := by nlinarith
      have hlb : -(magnitude A * magnitude B) ≤ dotProduct A B := by nlinarith
      have hdiv1 : dotProduct A B / (magnitude A * magnitude B) ≤ 1 :=
        (div_le_one hm).mpr hub
      have hdiv2 : (-1 : ℝ) ≤ dotProduct A B / (magnitude A * magnitude B) :=
        (le_div_iff₀ hm).mpr (by linarith)
      unfold cosineDistance
      rw [if_neg (by tauto)]
      constructor <;> linarith

/-- Witness for C5 at the concrete equal-length pair A = [1, 0],
B = [0, 1]. -/
theorem claim_C5_witness :
    ([(1 : ℝ), 0].length = [(0 : ℝ), 1].length) ∧
      (cosineDistance [(1 : ℝ), 0] [(0 : ℝ), 1] =
          cosineDistance [(0 : ℝ), 1] [(1 : ℝ), 0] ∧
        ((∃ a ∈ [(1 : ℝ), 0], a ≠ 0) →
          cosineDistance [(1 : ℝ), 0] [(1 : ℝ), 0] = 0) ∧
        (magnitude [(1 : ℝ), 0] = 0 ∨ magnitude [(0 : ℝ), 1] = 0 →
          cosineDistance [(1 : ℝ), 0] [(0 : ℝ), 1] = 1) ∧
        0 ≤ cosineDistance [(1 : ℝ), 0] [(0 : ℝ), 1] ∧
          cosineDistance [(1 : ℝ), 0] [(0 : ℝ), 1] ≤ 2) :=
  ⟨rfl, claim_C5 [(1 : ℝ), 0] [(0 : ℝ), 1] rfl⟩

theorem AssocMap.get_cons [DecidableEq κ] (e : κ × α) (m : List (κ × α))
    (j : κ) :
    AssocMap.get (e :: m) j = if e.1 = j then some e.2 else AssocMap.get m j := by
  by_cases h : e.1 = j <;> simp [AssocMap.get, List.find?_cons, h]

theorem AssocMap.get_map_update [DecidableEq κ] (m : List (κ × α)) (k j : κ)
    (v : α) :
    AssocMap.get (m.map (fun e => if e.1 = k then (k, v) else e)) j =
      if j = k then
        (if m.any (fun e => decide (e.1 = k)) then some v else none)
      else AssocMap.get m j := by
  induction m with
  | nil => by_cases h : j = k <;> simp [AssocMap.get, h]
  | cons e m ih =>
    simp only [List.map_cons, List.any_cons, Bool.or_eq_true]
    by_cases he : e.1 = k
    · by_cases hj : j = k
      · subst hj
        rw [if_pos he, AssocMap.get_cons]
        simp [he]
      · have hkj : ¬ (k = j) := fun h => hj h.symm
        have hej : ¬ (e.1 = j) := fun h => hkj (he.symm.trans h)
        rw [if_pos he, AssocMap.get_cons, AssocMap.get_cons]
        simp [hkj, hej, ih, hj]
    · by_cases hej : e.1 = j
      · have hj : ¬ j = k := fun h => he (hej.trans h)
        rw [if_neg he, AssocMap.get_cons, AssocMap.get_cons]
        simp [hej, hj]
      · rw [if_neg he, AssocMap.get_cons, AssocMap.get_cons, if_neg hej,
          if_neg hej, ih]
        by_cases hj : j = k
        · subst hj
          by_cases hm : m.any (fun e => decide (e.1 = j)) = true <;>
            simp [hm, he]
        · simp [hj]

theorem AssocMap.get_append_single [DecidableEq κ] (m : List (κ × α))
    (k j : κ) (v : α) :
    AssocMap.get (m ++ [(k, v)]) j =
      match AssocMap.get m j with
      | some w => some w
      | none => if j = k then some v else none := by
  induction m with
  | nil =>
    by_cases h : j = k
    · subst h
      simp [AssocMap.get]
    · have h2 : ¬ (k = j) := fun hc => h hc.symm
      simp [AssocMap.get, h, h2]
  | cons e m ih =>
    rw [List.cons_append, AssocMap.get_cons, AssocMap.get_cons]
    by_cases hej : e.1 = j
    · simp [hej]
    · simp only [if_neg hej]
      exact ih

theorem AssocMap.get_none_of_not_any [DecidableEq κ] {m : List (κ × α)}
    {k : κ} (h : ¬ m.any (fun e => decide (e.1 = k))) :
    AssocMap.get m k = none := by
  induction m with
  | nil => simp [AssocMap.get]
  | cons e m ih =>
    simp only [List.any_cons, Bool.or_eq_true, not_or] at h
    rw [AssocMap.get_cons, if_neg (by simpa using h.1)]
    exact ih h.2

/-- Characterization of `AssocMap.set`: reading key `j` after writing key
`k` yields the written value at `j = k` and is untouched elsewhere. -/
theorem AssocMap.get_set [DecidableEq κ] (m : List (κ × α)) (k j : κ)
    (v : α) :
    AssocMap.get (AssocMap.set m k v) j =
      if j = k then some v else AssocMap.get m j := by
  unfold AssocMap.set
  by_cases hany : m.any (fun e => decide (e.1 = k))
  · rw [if_pos hany, AssocMap.get_map_update, if_pos hany]
  · rw [if_neg hany, AssocMap.get_append_single]
    by_cases hj : j = k
    · subst hj
      rw [AssocMap.get_none_of_not_any hany]
    · cases hw : AssocMap.get m j <;> simp [hj]

/-- The inner loop body only touches the key of the candidate it compares. -/
theorem findNeighborsInnerBody_get (sameList : Bool) (neighborRadius : ℝ)
    (p c : HDVector) (n : ℕ) (acc : List (ℕ × ℝ)) (j : ℕ) :
    AssocMap.get (findNeighborsInnerBody sameList neighborRadius p acc (n, c)) j
      = if j = n then
          neighborUpdate sameList neighborRadius p c (AssocMap.get acc n)
        else AssocMap.get acc j := by
  unfold findNeighborsInnerBody neighborUpdate
  by_cases hs : sameList = true ∧ p.id = c.id
  · rw [if_pos hs, if_pos hs]
    by_cases hj : j = n
    · subst hj
      simp
    · simp [hj]
  · rw [if_neg hs, if_neg hs]
    by_cases hd : cosineDistance p.data c.data ≤ neighborRadius
    · simp only [if_pos hd]
      cases hget : AssocMap.get acc n with
      | none =>
        simp only [AssocMap.get_set]
      | some e =>
        simp only []
        by_cases hlt : cosineDistance p.data c.data < e
        · simp only [if_pos hlt, AssocMap.get_set]
        · simp only [if_neg hlt]
          by_cases hj : j = n
          · subst hj
            simp [hget]
          · simp [hj]
    · simp only [if_neg hd]
      by_cases hj : j = n
      · subst hj
        simp
      · simp [hj]

/-- Scanning the candidates enumerated from `n` updates each key
independently: the entry at `j` becomes the per-candidate update of the
previous entry, and keys outside the enumerated range are untouched. -/
theorem findNeighborsInner_get (sameList : Bool) (neighborRadius : ℝ)
    (p : HDVector) :
    ∀ (vs : List HDVector) (n : ℕ) (acc : List (ℕ × ℝ)) (j : ℕ),
    AssocMap.get
        ((vs.enumFrom n).foldl
          (findNeighborsInnerBody sameList neighborRadius p) acc) j
      = match (if n ≤ j then vs[j - n]? else none) with
        | some c =>
            neighborUpdate sameList neighborRadius p c (AssocMap.get acc j)
        | none => AssocMap.get acc j := by
  intro vs
  induction vs with
  | nil =>
    intro n acc j
    simp [List.enumFrom]
  | cons c vs ih =>
    intro n acc j
    rw [List.enumFrom_cons, List.foldl_cons, ih (n + 1)]
    by_cases hj : j = n
    · subst hj
      rw [if_neg (show ¬ (j + 1 ≤ j) by omega), if_pos (le_refl j)]
      simp [findNeighborsInnerBody_get]
    · rw [findNeighborsInnerBody_get, if_neg hj]
      by_cases hle : n ≤ j
      · have hlt : n + 1 ≤ j := by omega
        rw [if_pos hle, if_pos hlt,
          show j - n = (j - (n + 1)) + 1 by omega, List.getElem?_cons_succ]
      · rw [if_neg hle, if_neg (by omega)]

/-- Across the outer loop over the primary vectors, the entry at index `j`
is the fold of the per-candidate update over the primaries, against the
candidate stored at `j` — and indices outside the candidate list never get
an entry. -/
theorem findHighDimensionalNeighbors_get (primaryVectors allVectors :
    List HDVector) (sameList : Bool) (neighborRadius : ℝ) (j : ℕ) :
    AssocMap.get
        (findHighDimensionalNeighbors primaryVectors allVectors sameList
          neighborRadius) j
      = match allVectors[j]? with
        | some c =>
            primaryVectors.foldl
              (fun prev p => neighborUpdate sameList neighborRadius p c prev)
              none
        | none => none := by
  unfold findHighDimensionalNeighbors
  have main : ∀ (P : List HDVector) (acc : List (ℕ × ℝ)),
      AssocMap.get
          (P.foldl (fun acc primaryVector =>
            (allVectors.enum).foldl
              (findNeighborsInnerBody sameList neighborRadius primaryVector)
              acc) acc) j
        = match allVectors[j]? with
          | some c =>
              P.foldl
                (fun prev p =>
                  neighborUpdate sameList neighborRadius p c prev)
                (AssocMap.get acc j)
          | none => AssocMap.get acc j := by
    intro P
    induction P with
    | nil =>
      intro acc
      cases allVectors[j]? <;> simp
    | cons p P ih =>
      intro acc
      rw [List.foldl_cons, ih]
      have henum : allVectors.enum = allVectors.enumFrom 0 := rfl
      rw [henum, findNeighborsInner_get sameList neighborRadius p allVectors 0
        acc j, if_pos (Nat.zero_le j)]
      cases hc : allVectors[j - 0]? with
      | none =>
        rw [show j - 0 = j from rfl] at hc
        rw [hc]
      | some c =>
        rw [show j - 0 = j from rfl] at hc
        rw [hc]
        simp only [List.foldl_cons]
  rw [main]
  have hnil : AssocMap.get ([] : List (ℕ × ℝ)) j = (none : Option ℝ) := rfl
  rw [hnil]

/-- One comparison preserves the per-candidate characterization, extending
the scanned-primaries prefix by the compared primary. -/
theorem neighborAccSpec_step (sameList : Bool) (neighborRadius : ℝ)
    (c : HDVector) (l : List HDVector) (o : Option ℝ) (p : HDVector)
    (h : neighborAccSpec sameList neighborRadius c l o) :
    neighborAccSpec sameList neighborRadius c (l ++ [p])
      (neighborUpdate sameList neighborRadius p c o) := by
  unfold neighborUpdate
  by_cases hs : sameList = true ∧ p.id = c.id
  · rw [if_pos hs]
    cases o with
    | none =>
      intro q hq
      rcases List.mem_append.mp hq with hql | hqp
      · exact h q hql
      · rcases List.mem_singleton.mp hqp with rfl
        exact Or.inl hs
    | some d =>
      obtain ⟨hd, ⟨w, hwl, hwn, hwd⟩, hlb⟩ := h
      refine ⟨hd, ⟨w, List.mem_append_left _ hwl, hwn, hwd⟩, ?_⟩
      intro q hq hqn
      rcases List.mem_append.mp hq with hql | hqp
      · exact hlb q hql hqn
      · rcases List.mem_singleton.mp hqp with rfl
        exact absurd hs hqn
  · rw [if_neg hs]
    by_cases hd : cosineDistance p.data c.data ≤ neighborRadius
    · simp only [if_pos hd]
      cases o with
      | none =>
        refine ⟨hd, ⟨p, List.mem_append_right _ (List.mem_singleton_self p),
          hs, rfl⟩, ?_⟩
        intro q hq hqn
        rcases List.mem_append.mp hq with hql | hqp
        · rcases h q hql with hsk | hfar
          · exact absurd hsk hqn
          · linarith
        · rcases List.mem_singleton.mp hqp with rfl
          exact le_refl _
      | some e =>
        obtain ⟨he, ⟨w, hwl, hwn, hwd⟩, hlb⟩ := h
        by_cases hlt : cosineDistance p.data c.data < e
        · simp only [if_pos hlt]
          refine ⟨hd, ⟨p, List.mem_append_right _ (List.mem_singleton_self p),
            hs, rfl⟩, ?_⟩
          intro q hq hqn
          rcases List.mem_append.mp hq with hql | hqp
          · have := hlb q hql hqn
            linarith
          · rcases List.mem_singleton.mp hqp with rfl
            exact le_refl _
        · simp only [if_neg hlt]
          refine ⟨he, ⟨w, List.mem_append_left _ hwl, hwn, hwd⟩, ?_⟩
          intro q hq hqn
          rcases List.mem_append.mp hq with hql | hqp
          · exact hlb q hql hqn
          · rcases List.mem_singleton.mp hqp with rfl
            linarith
    · simp only [if_neg hd]
      cases o with
      | none =>
        intro q hq
        rcases List.mem_append.mp hq with hql | hqp
        · exact h q hql
        · rcases List.mem_singleton.mp hqp with rfl
          exact Or.inr (by linarith)
      | some e =>
        obtain ⟨he, ⟨w, hwl, hwn, hwd⟩, hlb⟩ := h
        refine ⟨he, ⟨w, List.mem_append_left _ hwl, hwn, hwd⟩, ?_⟩
        intro q hq hqn
        rcases List.mem_append.mp hq with hql | hqp
        · exact hlb q hql hqn
        · rcases List.mem_singleton.mp hqp with rfl
          linarith

/-- Folding the comparisons over a primary list preserves and extends the
characterization. -/
theorem neighborAccSpec_foldl (sameList : Bool) (neighborRadius : ℝ)
    (c : HDVector) :
    ∀ (P l : List HDVector) (o : Option ℝ),
    neighborAccSpec sameList neighborRadius c l o →
    neighborAccSpec sameList neighborRadius c (l ++ P)
      (P.foldl
        (fun prev p => neighborUpdate sameList neighborRadius p c prev) o) := by
  intro P
  induction P with
  | nil =>
    intro l o h
    simpa using h
  | cons p P ih =>
    intro l o h
    rw [List.foldl_cons]
    have h3 := ih (l ++ [p]) _
      (neighborAccSpec_step sameList neighborRadius c l o p h)
    simpa [List.append_assoc] using h3

/-- C4: for every list of primary vectors, candidate vector list, and
radius, `findHighDimensionalNeighbors` returns a map whose entry for
candidate index `i` (if present) is within the supplied radius and is the
minimum cosine distance from the primary vectors to that candidate
(attained by a non-skipped primary and a lower bound of all non-skipped
distances); a missing entry means every primary was either strictly out of
radius or was skipped, and a comparison is skipped only when the candidate
list is the same list object as the primary list and the candidate is the
identical vector object (`neighborSkip`).  Indices outside the candidate
list never get an entry. -/
theorem claim_C4 (primaryVectors allVectors : List HDVector)
    (sameList : Bool) (neighborRadius : ℝ) (i : ℕ) :
    (∀ c, allVectors[i]? = some c →
      neighborAccSpec sameList neighborRadius c primaryVectors
        (AssocMap.get (findHighDimensionalNeighbors primaryVectors allVectors
          sameList neighborRadius) i)) ∧
    (allVectors[i]? = none →
      AssocMap.get (findHighDimensionalNeighbors primaryVectors allVectors
        sameList neighborRadius) i = none) := by
  constructor
  · intro c hc
    rw [findHighDimensionalNeighbors_get, hc]
    have h0 : neighborAccSpec sameList neighborRadius c [] none :=
      fun q hq => absurd hq (List.not_mem_nil q)
    have h1 := neighborAccSpec_foldl sameList neighborRadius c
      primaryVectors [] none h0
    simpa using h1
  · intro hc
    rw [findHighDimensionalNeighbors_get, hc]

/-- Witness for C4: one primary vector `[1]` scanned against the distinct
candidate list `[[1], [-1]]` with radius 2; the hypothesis that index 0
holds a candidate is discharged by computation. -/
theorem claim_C4_witness :
    neighborAccSpec false 2 ⟨1, [(1 : ℝ)]⟩ [⟨0, [(1 : ℝ)]⟩]
      (AssocMap.get (findHighDimensionalNeighbors [⟨0, [(1 : ℝ)]⟩]
        [⟨1, [(1 : ℝ)]⟩, ⟨2, [(-1 : ℝ)]⟩] false 2) 0) :=
  (claim_C4 [⟨0, [(1 : ℝ)]⟩] [⟨1, [(1 : ℝ)]⟩, ⟨2, [(-1 : ℝ)]⟩]
      false 2 0).1 ⟨1, [(1 : ℝ)]⟩ rfl

theorem Vec3.distanceToSquared_eq (a b : Vec3) :
    a.distanceToSquared b = Vec3.lengthSq (a.sub b) := by
  unfold Vec3.distanceToSquared Vec3.lengthSq Vec3.sub
  ring

theorem Vec3.lengthSq_nonneg (a : Vec3) : 0 ≤ Vec3.lengthSq a := by
  unfold Vec3.lengthSq
  nlinarith [mul_self_nonneg a.x, mul_self_nonneg a.y, mul_self_nonneg a.z]

/-- Cauchy–Schwarz in 3D, via the Lagrange identity. -/
theorem Vec3.dot_sq_le (v w : Vec3) :
    Vec3.dot v w * Vec3.dot v w ≤ Vec3.lengthSq v * Vec3.lengthSq w := by
  unfold Vec3.dot Vec3.lengthSq
  nlinarith [sq_nonneg (v.x * w.y - v.y * w.x), sq_nonneg (v.x * w.z - v.z * w.x),
    sq_nonneg (v.y * w.z - v.z * w.y)]

theorem Ray.distanceSqToPoint_nonneg (ray : Ray) (point : Vec3) :
    0 ≤ ray.distanceSqToPoint point := by
  unfold Ray.distanceSqToPoint
  by_cases h0 : Vec3.lengthSq ray.direction = 0
  · simp only [if_pos h0]
    rw [Vec3.distanceToSquared_eq]
    exact Vec3.lengthSq_nonneg _
  · simp only [if_neg h0]
    by_cases hneg : Vec3.dot (point.sub ray.origin) ray.direction < 0
    · simp only [if_pos hneg]
      rw [Vec3.distanceToSquared_eq]
      exact Vec3.lengthSq_nonneg _
    · simp only [if_neg hneg]
      have hcs := Vec3.dot_sq_le (point.sub ray.origin) ray.direction
      have hpos : 0 < Vec3.lengthSq ray.direction :=
        lt_of_le_of_ne (Vec3.lengthSq_nonneg _) (Ne.symm h0)
      rw [sub_nonneg, div_le_iff₀ hpos]
      nlinarith

/-- The center the search ray is aimed at lies on the ray: its distance to
the ray is zero (also when the camera sits exactly at the center, where
`normalize()` yields the zero direction). -/
theorem Ray.self_distanceSq (cameraPosition center : Vec3) :
    (Ray.mk cameraPosition (center.sub cameraPosition)).distanceSqToPoint
      center = 0 := by
  unfold Ray.distanceSqToPoint
  by_cases h0 : Vec3.lengthSq (center.sub cameraPosition) = 0
  · simp only [if_pos h0]
    rw [Vec3.distanceToSquared_eq]
    exact h0
  · simp only [if_neg h0]
    have hdot : Vec3.dot (center.sub cameraPosition)
        (center.sub cameraPosition) = Vec3.lengthSq (center.sub cameraPosition) := by
      unfold Vec3.dot Vec3.lengthSq
      ring
    rw [if_neg (by rw [hdot]; exact not_lt.mpr (Vec3.lengthSq_nonneg _)),
      hdot]
    field_simp

/-- The primary-mesh list a radius scan collects is exactly the in-radius
filter of the scanned meshes, in order. -/
theorem scanRay_fst (sqrtFn : ℚ → ℚ) (radius : ℚ) (searchRay : Ray)
    (meshes : List Mesh) :
    (scanRay sqrtFn radius searchRay meshes).1 =
      meshes.filter (fun m =>
        searchRay.distanceSqToPoint m.position < radius * radius) := by
  unfold scanRay
  suffices h : ∀ (ms : List Mesh) (acc : List Mesh × List (String × ℚ)),
      (ms.foldl (fun acc mesh =>
        let distanceToRaySq := searchRay.distanceSqToPoint mesh.position
        if distanceToRaySq < radius * radius then
          let distance := sqrtFn distanceToRaySq
          let normalizedWeight := 1 - min distance radius / radius
          (acc.1 ++ [mesh], AssocMap.set acc.2 mesh.label normalizedWeight)
        else acc) acc).1 =
      acc.1 ++ ms.filter (fun m =>
        searchRay.distanceSqToPoint m.position < radius * radius) by
    rw [h meshes ([], [])]
    simp
  intro ms
  induction ms with
  | nil => intro acc; simp
  | cons m ms ih =>
    intro acc
    rw [List.foldl_cons]
    by_cases hm : searchRay.distanceSqToPoint m.position < radius * radius
    · simp only [if_pos hm, ih, List.filter_cons, hm]
      simp
    · simp only [if_neg hm, ih, List.filter_cons, hm]
      simp [hm]

/-- C8: whenever `selectByClick` runs against an existing point cloud and
no mesh lies within `threeDClickRadius` of the effective search ray
(whether or not an item was hit directly), the manual selection is cleared
to `none` — `hasManualSelection` is false afterwards — regardless of the
prior manual selection. -/
theorem selectByClick_none_eq (findHDN : FindNeighborsFn) (sqrtFn : ℚ → ℚ)
    (clickRay : Ray) (cameraPosition : Vec3) (meshes : List Mesh)
    (options : SelectorOptions) (s : PointSelectorState) :
    selectByClick findHDN sqrtFn none clickRay cameraPosition (some meshes)
        options s =
      finishClick findHDN options meshes s
        ((scanRay sqrtFn options.threeDClickRadius clickRay meshes).1,
         (scanRay sqrtFn options.threeDClickRadius clickRay meshes).2,
         none) := rfl

theorem selectByClick_hit_eq (findHDN : FindNeighborsFn) (sqrtFn : ℚ → ℚ)
    (target : Mesh) (clickRay : Ray) (cameraPosition : Vec3)
    (meshes : List Mesh) (options : SelectorOptions)
    (s : PointSelectorState) :
    selectByClick findHDN sqrtFn (some (some target)) clickRay
        cameraPosition (some meshes) options s =
      finishClick findHDN options meshes s
        ((scanRay sqrtFn options.threeDClickRadius
            ⟨cameraPosition, target.position.sub cameraPosition⟩ meshes).1,
         (scanRay sqrtFn options.threeDClickRadius
            ⟨cameraPosition, target.position.sub cameraPosition⟩ meshes).2,
         some target) := rfl

theorem selectByClick_invalid_eq (findHDN : FindNeighborsFn)
    (sqrtFn : ℚ → ℚ) (clickRay : Ray) (cameraPosition : Vec3)
    (meshes : List Mesh) (options : SelectorOptions)
    (s : PointSelectorState) :
    selectByClick findHDN sqrtFn (some none) clickRay cameraPosition
        (some meshes) options s =
      finishClick findHDN options meshes s ([], [], none) := rfl

theorem finishClick_clear (findHDN : FindNeighborsFn)
    (options : SelectorOptions) (meshes : List Mesh)
    (s : PointSelectorState)
    (scanned : List Mesh × List (String × ℚ) × Option Mesh)
    (h : scanned.1 = []) :
    finishClick findHDN options meshes s scanned =
      { s with manualSelectionState := none } := by
  unfold finishClick
  rw [if_pos (by rw [h]; rfl)]

theorem finishClick_build (findHDN : FindNeighborsFn)
    (options : SelectorOptions) (meshes : List Mesh)
    (s : PointSelectorState)
    (scanned : List Mesh × List (String × ℚ) × Option Mesh)
    (h : scanned.1 ≠ []) :
    ∃ w nd, (finishClick findHDN options meshes s
        scanned).manualSelectionState =
      some ⟨scanned.1, w, scanned.2.2, nd⟩ := by
  unfold finishClick
  rw [if_neg (by simpa [List.isEmpty_iff] using h)]
  exact ⟨_, _, rfl⟩

theorem claim_C8 (findHDN : FindNeighborsFn) (sqrtFn : ℚ → ℚ)
    (intersected : Option (Option Mesh)) (clickRay : Ray)
    (cameraPosition : Vec3) (meshes : List Mesh)
    (options : SelectorOptions) (s : PointSelectorState)
    (hmiss : ∀ m ∈ meshes,
      options.threeDClickRadius * options.threeDClickRadius ≤
        clickScanDistanceSq intersected clickRay cameraPosition m) :
    (selectByClick findHDN sqrtFn intersected clickRay cameraPosition
        (some meshes) options s).manualSelectionState = none ∧
      hasManualSelection (selectByClick findHDN sqrtFn intersected clickRay
        cameraPosition (some meshes) options s) = false := by
  have hmain : (selectByClick findHDN sqrtFn intersected clickRay
      cameraPosition (some meshes) options s).manualSelectionState = none := by
    rcases intersected with _ | tOpt
    · rw [selectByClick_none_eq, finishClick_clear]
      rw [scanRay_fst, List.filter_eq_nil_iff]
      intro m hm
      simp only [decide_eq_true_eq, not_lt]
      exact hmiss m hm
    · rcases tOpt with _ | target
      · rw [selectByClick_invalid_eq, finishClick_clear _ _ _ _ _ rfl]
      · rw [selectByClick_hit_eq, finishClick_clear]
        rw [scanRay_fst, List.filter_eq_nil_iff]
        intro m hm
        simp only [decide_eq_true_eq, not_lt]
        exact hmiss m hm
  exact ⟨hmain, by unfold hasManualSelection; rw [hmain]; rfl⟩

/-- Witness for C8: one mesh 10 units from the origin, radius 1, a click
ray along the x axis that misses it; the selection afterwards is none. -/
theorem claim_C8_witness :
    (∀ m ∈ [(⟨0, "a", ⟨0, 10, 0⟩, []⟩ : Mesh)],
      (1 : ℚ) * 1 ≤ clickScanDistanceSq none ⟨⟨0, 0, 0⟩, ⟨1, 0, 0⟩⟩
        ⟨0, 0, 0⟩ m) ∧
    (selectByClick (fun _ _ _ => []) (fun q => q) none ⟨⟨0, 0, 0⟩, ⟨1, 0, 0⟩⟩
        ⟨0, 0, 0⟩ (some [⟨0, "a", ⟨0, 10, 0⟩, []⟩])
        ⟨1, 1, 1, false⟩
        ⟨some ⟨[], [], none, []⟩, [], []⟩).manualSelectionState = none := by
  have hm : ∀ m ∈ [(⟨0, "a", ⟨0, 10, 0⟩, []⟩ : Mesh)],
      (1 : ℚ) * 1 ≤ clickScanDistanceSq none ⟨⟨0, 0, 0⟩, ⟨1, 0, 0⟩⟩
        ⟨0, 0, 0⟩ m := by
    intro m hm
    rcases List.mem_singleton.mp hm with rfl
    norm_num [clickScanDistanceSq, Ray.distanceSqToPoint, Vec3.lengthSq,
      Vec3.sub, Vec3.dot, Vec3.distanceToSquared]
  exact ⟨hm, (claim_C8 (fun _ _ _ => []) (fun q => q) none
    ⟨⟨0, 0, 0⟩, ⟨1, 0, 0⟩⟩ ⟨0, 0, 0⟩ [⟨0, "a", ⟨0, 10, 0⟩, []⟩]
    ⟨1, 1, 1, false⟩ ⟨some ⟨[], [], none, []⟩, [], []⟩ hm).1⟩

/-- The mesh list the restore scan collects is the preserved-label filter
of the fresh cloud, in cloud order. -/
theorem restoreScan_fst (preserved : PreservedManualSelection) :
    ∀ (pc : List Mesh) (acc : List Mesh × Option Mesh),
    (pc.foldl (restoreScanStep preserved) acc).1 =
      acc.1 ++ pc.filter (fun mesh =>
        preserved.primaryLabels.contains mesh.label) := by
  intro pc
  induction pc with
  | nil => intro acc; simp
  | cons m pc ih =>
    intro acc
    rw [List.foldl_cons, ih]
    unfold restoreScanStep
    by_cases hm : m.label ∈ preserved.primaryLabels
    · simp [List.filter_cons, hm]
    · simp [List.filter_cons, hm]

/-- The clicked mesh the restore scan finds matches the preserved clicked
label and comes from the fresh cloud. -/
theorem restoreScan_snd (preserved : PreservedManualSelection) :
    ∀ (pc : List Mesh) (acc : List Mesh × Option Mesh) (m : Mesh),
    (pc.foldl (restoreScanStep preserved) acc).2 = some m →
      acc.2 = some m ∨ (m ∈ pc ∧ some m.label = preserved.clickedLabel) := by
  intro pc
  induction pc with
  | nil =>
    intro acc m h
    exact Or.inl h
  | cons q pc ih =>
    intro acc m h
    rw [List.foldl_cons] at h
    rcases ih _ _ h with hacc | ⟨hmem, hlab⟩
    · unfold restoreScanStep at hacc
      by_cases hq : some q.label = preserved.clickedLabel
      · simp only [if_pos hq] at hacc
        rcases Option.some_inj.mp hacc with rfl
        exact Or.inr ⟨List.mem_cons_self _ _, hq⟩
      · simp only [if_neg hq] at hacc
        exact Or.inl hacc
    · exact Or.inr ⟨List.mem_cons_of_mem _ hmem, hlab⟩

theorem restoreManualSelection_eq (findHDN : FindNeighborsFn)
    (preserved : PreservedManualSelection) (pointCloud : List Mesh)
    (options : SelectorOptions) (s : PointSelectorState) :
    restoreManualSelection findHDN preserved pointCloud options s =
      (if (pointCloud.foldl (restoreScanStep preserved) ([], none)).1.isEmpty
       then s
       else
        { s with manualSelectionState :=
          (some ⟨(pointCloud.foldl (restoreScanStep preserved) ([], none)).1,
            preserved.weights,
            (pointCloud.foldl (restoreScanStep preserved) ([], none)).2,
            (if options.includeHighDimensionalNeighbors then
              findHDN
                ((pointCloud.foldl (restoreScanStep preserved)
                  ([], none)).1.map (fun m => m.vector))
                (pointCloud.map (fun m => m.vector)) options.neighborRadius
             else [])⟩) }) := rfl

/-- C9: over clicks (any raycast outcome, ray, radius — including radius 0)
and restore-after-reprojection, the invariant is preserved: whenever a
manual selection exists and its directly-clicked item is present, that
item belongs to the manual primary set. -/
theorem claim_C9 (findHDN : FindNeighborsFn) (sqrtFn : ℚ → ℚ)
    (options : SelectorOptions) (op : SelectorOp) (s : PointSelectorState)
    (hwf : opWellFormed op) (hinv : clickedInPrimary s) :
    clickedInPrimary (stepSelector findHDN sqrtFn options op s) := by
  cases op with
  | click intersected clickRay cameraPosition pointCloud =>
    show clickedInPrimary (selectByClick findHDN sqrtFn intersected clickRay
      cameraPosition pointCloud options s)
    rcases pointCloud with _ | meshes
    · exact hinv
    rcases intersected with _ | tOpt
    · rw [selectByClick_none_eq]
      set sc := scanRay sqrtFn options.threeDClickRadius clickRay meshes
      by_cases hempty : sc.1 = []
      · rw [finishClick_clear _ _ _ _ _ hempty]
        intro st hst
        simp at hst
      · obtain ⟨w, nd, hmanual⟩ :=
          finishClick_build findHDN options meshes s (sc.1, sc.2, none) hempty
        intro st hst c hc
        rw [hmanual] at hst
        rcases Option.some_inj.mp hst with rfl
        simp at hc
    · rcases tOpt with _ | target
      · rw [selectByClick_invalid_eq, finishClick_clear _ _ _ _ _ rfl]
        intro st hst
        simp at hst
      · rw [selectByClick_hit_eq]
        set ray : Ray := ⟨cameraPosition, target.position.sub cameraPosition⟩
        set sc := scanRay sqrtFn options.threeDClickRadius ray meshes with hsc
        by_cases hempty : sc.1 = []
        · rw [finishClick_clear _ _ _ _ _ hempty]
          intro st hst
          simp at hst
        · obtain ⟨w, nd, hmanual⟩ := finishClick_build findHDN options meshes
            s (sc.1, sc.2, some target) hempty
          intro st hst c hc
          rw [hmanual] at hst
          rcases Option.some_inj.mp hst with rfl
          simp only at hc
          rcases Option.some_inj.mp hc with rfl
          have hfst := scanRay_fst sqrtFn options.threeDClickRadius ray meshes
          obtain ⟨m0, hm0⟩ := List.exists_mem_of_ne_nil _ hempty
          have hm0f := hfst ▸ hm0
          have hm0lt := (List.mem_filter.mp hm0f).2
          have hrpos : 0 < options.threeDClickRadius *
              options.threeDClickRadius := by
            have := Ray.distanceSqToPoint_nonneg ray m0.position
            have := of_decide_eq_true hm0lt
            linarith
          show target ∈ sc.1
          rw [hsc, hfst]
          refine List.mem_filter.mpr ⟨hwf, ?_⟩
          have h0 : ray.distanceSqToPoint target.position = 0 :=
            Ray.self_distanceSq cameraPosition target.position
          rw [decide_eq_true_eq, h0]
          exact hrpos
  | restore pointCloud =>
    show clickedInPrimary (match getPreservedManualSelection s with
      | none => s
      | some preserved =>
        restoreManualSelection findHDN preserved pointCloud options s)
    cases hpres : getPreservedManualSelection s with
    | none => exact hinv
    | some preserved =>
      obtain ⟨st0, hst0, hpe⟩ : ∃ st0, s.manualSelectionState = some st0 ∧
          preserved = ⟨st0.primaryMeshes.map (fun m => m.label),
            st0.directlyClickedMesh.map (fun m => m.label),
            st0.selectionWeights⟩ := by
        unfold getPreservedManualSelection at hpres
        cases hs : s.manualSelectionState with
        | none => rw [hs] at hpres; simp at hpres
        | some st0 =>
          rw [hs] at hpres
          have hpres2 : some
              (⟨st0.primaryMeshes.map (fun m => m.label),
                st0.directlyClickedMesh.map (fun m => m.label),
                st0.selectionWeights⟩ : PreservedManualSelection) =
              some preserved := hpres
          exact ⟨st0, rfl, (Option.some_inj.mp hpres2).symm⟩
      show clickedInPrimary
        (restoreManualSelection findHDN preserved pointCloud options s)
      rw [restoreManualSelection_eq]
      set scan := pointCloud.foldl (restoreScanStep preserved) ([], none)
        with hscan
      by_cases hempty : scan.1.isEmpty
      · rw [if_pos hempty]
        exact hinv
      · rw [if_neg hempty]
        intro st hst c hc
        simp only at hst
        rcases Option.some_inj.mp hst with rfl
        simp only at hc
        rcases restoreScan_snd preserved pointCloud ([], none) c hc with
          habs | ⟨hmem, hlab⟩
        · simp at habs
        · have hclicked0 : ∃ c0, st0.directlyClickedMesh = some c0 ∧
              c.label = c0.label := by
            rw [hpe] at hlab
            cases hc0 : st0.directlyClickedMesh with
            | none => rw [hc0] at hlab; simp at hlab
            | some c0 =>
              rw [hc0] at hlab
              have hlab2 : some c.label = some c0.label := hlab
              exact ⟨c0, rfl, Option.some_inj.mp hlab2⟩
          obtain ⟨c0, hc0, hcl⟩ := hclicked0
          have hc0p : c0 ∈ st0.primaryMeshes := hinv st0 hst0 c0 hc0
          have hlabmem : c.label ∈ preserved.primaryLabels := by
            rw [hpe]
            simp only []
            rw [hcl]
            exact List.mem_map_of_mem (fun m => m.label) hc0p
          show c ∈ scan.1
          rw [hscan, restoreScan_fst]
          refine List.mem_append_right _ (List.mem_filter.mpr ⟨hmem, ?_⟩)
          simpa using hlabmem

/-- Witness for C9: a click against a one-mesh cloud that hits the mesh
directly; the invariant holds before (no selection) and after. -/
theorem claim_C9_witness :
    opWellFormed (SelectorOp.click (some (some ⟨0, "a", ⟨3, 0, 0⟩, []⟩))
        ⟨⟨0, 0, 0⟩, ⟨1, 0, 0⟩⟩ ⟨0, 0, 0⟩ (some [⟨0, "a", ⟨3, 0, 0⟩, []⟩])) ∧
      clickedInPrimary
        (⟨none, [], []⟩ : PointSelectorState) ∧
      clickedInPrimary (stepSelector (fun _ _ _ => []) (fun q => q)
        ⟨1, 1, 1, false⟩
        (SelectorOp.click (some (some ⟨0, "a", ⟨3, 0, 0⟩, []⟩))
          ⟨⟨0, 0, 0⟩, ⟨1, 0, 0⟩⟩ ⟨0, 0, 0⟩ (some [⟨0, "a", ⟨3, 0, 0⟩, []⟩]))
        ⟨none, [], []⟩) := by
  have hwf : opWellFormed (SelectorOp.click
      (some (some ⟨0, "a", ⟨3, 0, 0⟩, []⟩)) ⟨⟨0, 0, 0⟩, ⟨1, 0, 0⟩⟩
      ⟨0, 0, 0⟩ (some [⟨0, "a", ⟨3, 0, 0⟩, []⟩])) := by
    show (⟨0, "a", ⟨3, 0, 0⟩, []⟩ : Mesh) ∈ [⟨0, "a", ⟨3, 0, 0⟩, []⟩]
    exact List.mem_singleton_self _
  have hinv : clickedInPrimary (⟨none, [], []⟩ : PointSelectorState) := by
    intro st hst
    simp at hst
  exact ⟨hwf, hinv, claim_C9 (fun _ _ _ => []) (fun q => q) ⟨1, 1, 1, false⟩
    _ _ hwf hinv⟩

theorem mergeManualWeight_get_self (cw : List (String × ℚ))
    (e : String × ℚ) :
    (AssocMap.get (mergeManualWeight cw e) e.1).isSome := by
  unfold mergeManualWeight
  cases hget : AssocMap.get cw e.1 with
  | none =>
    simp only [AssocMap.get_set]
    simp
  | some existing =>
    by_cases hgt : e.2 > existing
    · simp only [if_pos hgt, AssocMap.get_set]
      simp
    · simp only [if_neg hgt, hget]
      simp

theorem mergeManualWeight_get_isSome (cw : List (String × ℚ))
    (e : String × ℚ) (label : String)
    (h : (AssocMap.get cw label).isSome) :
    (AssocMap.get (mergeManualWeight cw e) label).isSome := by
  unfold mergeManualWeight
  cases hget : AssocMap.get cw e.1 with
  | none =>
    simp only [AssocMap.get_set]
    by_cases hl : label = e.1 <;> simp [hl, h]
  | some existing =>
    simp only []
    by_cases hgt : e.2 > existing
    · rw [if_pos hgt, AssocMap.get_set]
      by_cases hl : label = e.1 <;> simp [hl, h]
    · rw [if_neg hgt]
      exact h

theorem mergeFold_present : ∀ (W : List (String × ℚ))
    (cw : List (String × ℚ)) (label : String),
    (AssocMap.get cw label).isSome →
    (AssocMap.get (W.foldl mergeManualWeight cw) label).isSome := by
  intro W
  induction W with
  | nil => intro cw label h; exact h
  | cons e W ih =>
    intro cw label h
    rw [List.foldl_cons]
    exact ih _ _ (mergeManualWeight_get_isSome cw e label h)

/-- Every label carried by the manual selection weights survives the
max-merge into the combined map. -/
theorem mergeFold_mem : ∀ (W : List (String × ℚ))
    (cw : List (String × ℚ)) (label : String),
    (AssocMap.get W label).isSome →
    (AssocMap.get (W.foldl mergeManualWeight cw) label).isSome := by
  intro W
  induction W with
  | nil => intro cw label h; simp [AssocMap.get] at h
  | cons e W ih =>
    intro cw label h
    rw [List.foldl_cons]
    rw [AssocMap.get_cons] at h
    by_cases hl : e.1 = label
    · subst hl
      exact mergeFold_present W _ _ (mergeManualWeight_get_self cw e)
    · rw [if_neg hl] at h
      exact ih _ _ h

/-- C10: `recalculateNeighbors` touches only the `neighborDistances` field
of the manual selection — the primary mesh list, the directly-clicked item,
the stored selection weight map, and the proximity state are unchanged;
with neighbor inclusion disabled it empties the neighbor map, and every
label folded into the stored selection weights at click time still appears
in the subsequent `getCombinedWeights` output. -/
theorem claim_C10 (findHDN : FindNeighborsFn)
    (pointCloud : Option (List Mesh)) (options : SelectorOptions)
    (s : PointSelectorState) :
    (recalculateNeighbors findHDN pointCloud options s).proximityMeshes =
        s.proximityMeshes ∧
    (recalculateNeighbors findHDN pointCloud options s).proximityWeights =
        s.proximityWeights ∧
    (s.manualSelectionState = none →
      recalculateNeighbors findHDN pointCloud options s = s) ∧
    (∀ st, s.manualSelectionState = some st →
      ∃ st2, (recalculateNeighbors findHDN pointCloud options
          s).manualSelectionState = some st2 ∧
        st2.primaryMeshes = st.primaryMeshes ∧
        st2.selectionWeights = st.selectionWeights ∧
        st2.directlyClickedMesh = st.directlyClickedMesh ∧
        (options.includeHighDimensionalNeighbors = false →
          st2.neighborDistances = [])) ∧
    (∀ st, s.manualSelectionState = some st →
      options.includeHighDimensionalNeighbors = false →
      ∀ label, (AssocMap.get st.selectionWeights label).isSome →
        (AssocMap.get (getCombinedWeights pointCloud options
          (recalculateNeighbors findHDN pointCloud options s))
          label).isSome) := by
  cases hms : s.manualSelectionState with
  | none =>
    have hrec : recalculateNeighbors findHDN pointCloud options s = s := by
      unfold recalculateNeighbors
      rw [hms]
    refine ⟨by rw [hrec], by rw [hrec], fun _ => hrec, ?_, ?_⟩
    · intro st hst
      exact absurd hst (by simp)
    · intro st hst
      exact absurd hst (by simp)
  | some st =>
    by_cases hinc : options.includeHighDimensionalNeighbors
    · have hcond : ¬ (¬ options.includeHighDimensionalNeighbors = true) := by
        simpa using hinc
      cases pointCloud with
      | none =>
        have hrec : recalculateNeighbors findHDN none options s = s := by
          unfold recalculateNeighbors
          rw [hms]
          simp only []
          rw [if_neg hcond]
        refine ⟨by rw [hrec], by rw [hrec], fun h => hrec, ?_, ?_⟩
        · intro st1 hst1
          rcases Option.some_inj.mp hst1 with rfl
          exact ⟨st, by rw [hrec, hms], rfl, rfl, rfl,
            fun hfalse => absurd hinc (by simp [hfalse])⟩
        · intro st1 hst1 hfalse
          exact absurd hinc (by simp [hfalse])
      | some meshes =>
        obtain ⟨nd, hrec⟩ : ∃ nd,
            recalculateNeighbors findHDN (some meshes) options s =
              { s with manualSelectionState :=
                (some { st with neighborDistances := nd }) } := by
          refine ⟨findHDN (st.primaryMeshes.map (fun m => m.vector))
            (meshes.map (fun m => m.vector)) options.neighborRadius, ?_⟩
          unfold recalculateNeighbors
          rw [hms]
          simp only []
          rw [if_neg hcond]
        refine ⟨by rw [hrec], by rw [hrec], ?_, ?_, ?_⟩
        · intro h
          exact absurd h (by simp)
        · intro st1 hst1
          rcases Option.some_inj.mp hst1 with rfl
          exact ⟨{ st with neighborDistances := nd }, by rw [hrec], rfl, rfl,
            rfl, fun hfalse => absurd hinc (by simp [hfalse])⟩
        · intro st1 hst1 hfalse
          exact absurd hinc (by simp [hfalse])
    · have hcond : (¬ options.includeHighDimensionalNeighbors = true) := by
        simpa using hinc
      have hrec : recalculateNeighbors findHDN pointCloud options s =
          { s with manualSelectionState :=
            (some { st with neighborDistances := ([] : List (ℕ × ℚ)) }) } := by
        unfold recalculateNeighbors
        rw [hms]
        simp only []
        rw [if_pos hcond]
      refine ⟨by rw [hrec], by rw [hrec], ?_, ?_, ?_⟩
      · intro h
        exact absurd h (by simp)
      · intro st1 hst1
        rcases Option.some_inj.mp hst1 with rfl
        exact ⟨{ st with neighborDistances := ([] : List (ℕ × ℚ)) },
          by rw [hrec], rfl, rfl, rfl, fun _ => rfl⟩
      · intro st1 hst1 hfalse label hlabel
        rcases Option.some_inj.mp hst1 with rfl
        rw [hrec]
        unfold getCombinedWeights
        simp only []
        rw [if_neg (by simp [hfalse])]
        exact mergeFold_mem st.selectionWeights _ label hlabel

/-- Witness for C10: a state with manual selection carrying a folded weight
for label "x" and a non-empty neighbor map; with neighbor inclusion
disabled, recalculation keeps "x" visible in the combined output. -/
theorem claim_C10_witness :
    ((⟨some ⟨[], [("x", 1)], none, [(0, 1/2)]⟩, [], []⟩ :
        PointSelectorState).manualSelectionState =
      some ⟨[], [("x", 1)], none, [(0, 1/2)]⟩) ∧
    ((⟨1, 1, 1, false⟩ :
        SelectorOptions).includeHighDimensionalNeighbors = false) ∧
    (AssocMap.get [("x", (1 : ℚ))] "x").isSome = true ∧
    (AssocMap.get (getCombinedWeights none ⟨1, 1, 1, false⟩
      (recalculateNeighbors (fun _ _ _ => []) none ⟨1, 1, 1, false⟩
        ⟨some ⟨[], [("x", 1)], none, [(0, 1/2)]⟩, [], []⟩))
      "x").isSome = true := by
  have hx : (AssocMap.get [("x", (1 : ℚ))] "x").isSome = true := by
    rw [show AssocMap.get [("x", (1 : ℚ))] "x" =
      if ("x" : String) = "x" then some 1 else AssocMap.get [] "x" from
        AssocMap.get_cons ("x", (1 : ℚ)) [] "x", if_pos rfl]
    rfl
  refine ⟨rfl, rfl, hx, ?_⟩
  exact (claim_C10 (fun _ _ _ => []) none ⟨1, 1, 1, false⟩
    ⟨some ⟨[], [("x", 1)], none, [(0, 1/2)]⟩, [], []⟩).2.2.2.2
    ⟨[], [("x", 1)], none, [(0, 1/2)]⟩ rfl rfl "x" hx

theorem AssocMap.get_eq_none_of_not_mem_keys [DecidableEq κ]
    {m : List (κ × α)} {k : κ} (h : k ∉ AssocMap.keys m) :
    AssocMap.get m k = none := by
  apply AssocMap.get_none_of_not_any
  intro hany
  rcases List.any_eq_true.mp hany with ⟨e, he, hk⟩
  exact h (List.mem_map.mpr ⟨e, he, of_decide_eq_true hk⟩)

theorem mergeManualWeight_get_other (cw : List (String × ℚ))
    (e : String × ℚ) (label : String) (h : label ≠ e.1) :
    AssocMap.get (mergeManualWeight cw e) label = AssocMap.get cw label := by
  unfold mergeManualWeight
  cases hget : AssocMap.get cw e.1 with
  | none =>
    rw [AssocMap.get_set, if_neg h]
  | some existing =>
    simp only []
    by_cases hgt : e.2 > existing
    · rw [if_pos hgt, AssocMap.get_set, if_neg h]
    · rw [if_neg hgt]

/-- Characterization of the manual max-merge loop: for unique manual keys,
the combined entry at a label is the manual value when the label was
absent, the larger of the two when both are present, and untouched when
the manual map does not mention it. -/
theorem mergeFold_get : ∀ (W cw : List (String × ℚ)) (label : String),
    (AssocMap.keys W).Nodup →
    AssocMap.get (W.foldl mergeManualWeight cw) label =
      match AssocMap.get W label, AssocMap.get cw label with
      | none, x => x
      | some w, none => some w
      | some w, some e => some (max e w) := by
  intro W
  induction W with
  | nil =>
    intro cw label hnodup
    simp [AssocMap.get]
  | cons e0 W ih =>
    intro cw label hnodup
    have hnodup' : (AssocMap.keys W).Nodup := by
      have := hnodup
      simp only [AssocMap.keys, List.map_cons, List.nodup_cons] at this
      exact this.2
    have hnotmem : e0.1 ∉ AssocMap.keys W := by
      have := hnodup
      simp only [AssocMap.keys, List.map_cons, List.nodup_cons] at this
      exact this.1
    rw [List.foldl_cons, ih _ _ hnodup', AssocMap.get_cons]
    by_cases hl : e0.1 = label
    · subst hl
      rw [if_pos rfl, AssocMap.get_eq_none_of_not_mem_keys hnotmem]
      unfold mergeManualWeight
      cases hget : AssocMap.get cw e0.1 with
      | none =>
        rw [AssocMap.get_set, if_pos rfl]
      | some existing =>
        simp only []
        by_cases hgt : e0.2 > existing
        · rw [if_pos hgt, AssocMap.get_set, if_pos rfl,
            max_eq_right (le_of_lt hgt)]
        · rw [if_neg hgt, hget, max_eq_left (not_lt.mp hgt)]
    · rw [if_neg hl, mergeManualWeight_get_other cw e0 label
        (fun hc => hl hc.symm)]

theorem addNeighborStep_fold_preserves (options : SelectorOptions)
    (meshes : List Mesh) :
    ∀ (nd : List (ℕ × ℚ)) (cw : List (String × ℚ)) (label : String)
      (w : ℚ), AssocMap.get cw label = some w →
    AssocMap.get (nd.foldl (addNeighborStep options meshes) cw) label =
      some w := by
  intro nd
  induction nd with
  | nil => intro cw label w h; exact h
  | cons e nd ih =>
    intro cw label w h
    rw [List.foldl_cons]
    apply ih
    unfold addNeighborStep
    cases hm : meshes[e.1]? with
    | none => exact h
    | some nm =>
      simp only []
      by_cases habs : AssocMap.get cw nm.label = none
      · rw [if_pos habs, AssocMap.get_set,
          if_neg (fun hc : label = nm.label => by
            rw [hc] at h
            rw [h] at habs
            exact Option.noConfusion habs)]
        exact h
      · rw [if_neg habs]
        exact h

/-- One neighbor entry either hits the sought label (and the fill is its
normalized weight) or the fill falls through to the remaining entries. -/
theorem claimNeighborFill_cons (options : SelectorOptions)
    (meshes : List Mesh) (e : ℕ × ℚ) (nd : List (ℕ × ℚ)) (label : String) :
    claimNeighborFill options meshes (e :: nd) label =
      if (match meshes[e.1]? with
          | some nm => decide (nm.label = label)
          | none => false) = true
      then some (1 - min e.2 options.neighborRadius / options.neighborRadius)
      else claimNeighborFill options meshes nd label := by
  unfold claimNeighborFill
  rw [List.find?_cons]
  cases hp : (match meshes[e.1]? with
      | some nm => decide (nm.label = label)
      | none => false) with
  | true => simp
  | false => simp

/-- Characterization of the gap-fill loop at an absent label: the entry
becomes the normalized weight of the first neighbor entry whose mesh
carries that label, and stays absent if there is none. -/
theorem addNeighborStep_fold_absent (options : SelectorOptions)
    (meshes : List Mesh) :
    ∀ (nd : List (ℕ × ℚ)) (cw : List (String × ℚ)) (label : String),
    AssocMap.get cw label = none →
    AssocMap.get (nd.foldl (addNeighborStep options meshes) cw) label =
      claimNeighborFill options meshes nd label := by
  intro nd
  induction nd with
  | nil =>
    intro cw label h
    simp only [List.foldl_nil, claimNeighborFill, List.find?_nil,
      Option.map_none']
    exact h
  | cons e nd ih =>
    intro cw label h
    rw [List.foldl_cons, claimNeighborFill_cons]
    cases hm : meshes[e.1]? with
    | none =>
      have hstep : addNeighborStep options meshes cw e = cw := by
        unfold addNeighborStep
        rw [hm]
      rw [hstep, if_neg (by simp), ih cw label h]
    | some nm =>
      by_cases hlab : nm.label = label
      · subst hlab
        have hstep : addNeighborStep options meshes cw e =
            AssocMap.set cw nm.label (1 - min e.2 options.neighborRadius /
              options.neighborRadius) := by
          unfold addNeighborStep
          rw [hm]
          simp only []
          rw [if_pos h]
        rw [hstep, if_pos (by simp)]
        apply addNeighborStep_fold_preserves
        rw [AssocMap.get_set, if_pos rfl]
      · rw [if_neg (by simp [hlab])]
        by_cases habs : AssocMap.get cw nm.label = none
        · have hstep : addNeighborStep options meshes cw e =
              AssocMap.set cw nm.label (1 - min e.2 options.neighborRadius /
                options.neighborRadius) := by
            unfold addNeighborStep
            rw [hm]
            simp only []
            rw [if_pos habs]
          rw [hstep]
          apply ih
          rw [AssocMap.get_set, if_neg (fun hc => hlab hc.symm)]
          exact h
        · have hstep : addNeighborStep options meshes cw e = cw := by
            unfold addNeighborStep
            rw [hm]
            simp only []
            rw [if_neg habs]
          rw [hstep, ih cw label h]

/-- The gap-fill never overwrites: a label already present keeps its value
through `addNeighborsToWeights`. -/
theorem addNeighborsToWeights_get_present (options : SelectorOptions)
    (pointCloud : Option (List Mesh)) (nd : List (ℕ × ℚ))
    (cw : List (String × ℚ)) (label : String) (w : ℚ)
    (h : AssocMap.get cw label = some w) :
    AssocMap.get (addNeighborsToWeights options pointCloud nd cw) label =
      some w := by
  unfold addNeighborsToWeights
  by_cases hinc : options.includeHighDimensionalNeighbors = true
  · rw [if_neg (by simp [hinc])]
    cases pointCloud with
    | none => exact h
    | some meshes =>
      simp only []
      exact addNeighborStep_fold_preserves options meshes nd cw label w h
  · rw [if_pos (by simpa using hinc)]
    exact h

/-- Amended C1 (the behavior `getCombinedWeights` actually implements):
for every label mentioned by the proximity or manual weights the combined
entry is the maximum of the two present values; a label mentioned by
neither is filled from the manual selection's neighbor map (when inclusion
is on) and is otherwise absent — in particular a neighbor-derived weight
never overwrites an already-present entry, even a smaller one.  The manual
weight map has unique keys (JS object keys are unique). -/
theorem claim_C1_amended (pointCloud : Option (List Mesh))
    (options : SelectorOptions) (s : PointSelectorState) (label : String)
    (hnodup : ∀ st, s.manualSelectionState = some st →
      (AssocMap.keys st.selectionWeights).Nodup) :
    AssocMap.get (getCombinedWeights pointCloud options s) label =
      combinedWeightSpec pointCloud options s label := by
  cases hms : s.manualSelectionState with
  | none =>
    unfold getCombinedWeights combinedWeightSpec
    rw [hms]
    simp only [Option.none_bind]
    cases hprox : AssocMap.get s.proximityWeights label <;> simp
  | some st =>
    unfold getCombinedWeights combinedWeightSpec
    rw [hms]
    simp only [Option.some_bind]
    have hmerge := mergeFold_get st.selectionWeights s.proximityWeights
      label (hnodup st hms)
    by_cases hinc : options.includeHighDimensionalNeighbors = true
    · rw [if_pos hinc]
      cases hman : AssocMap.get st.selectionWeights label with
      | some mw =>
        rw [hman] at hmerge
        cases hprox : AssocMap.get s.proximityWeights label with
        | some pw =>
          rw [hprox] at hmerge
          simp only [] at hmerge ⊢
          rw [addNeighborsToWeights_get_present options pointCloud
            st.neighborDistances _ label (max pw mw) hmerge]
        | none =>
          rw [hprox] at hmerge
          simp only [] at hmerge ⊢
          rw [addNeighborsToWeights_get_present options pointCloud
            st.neighborDistances _ label mw hmerge]
      | none =>
        rw [hman] at hmerge
        cases hprox : AssocMap.get s.proximityWeights label with
        | some pw =>
          rw [hprox] at hmerge
          simp only [] at hmerge ⊢
          rw [addNeighborsToWeights_get_present options pointCloud
            st.neighborDistances _ label pw hmerge]
        | none =>
          rw [hprox] at hmerge
          simp only [] at hmerge ⊢
          unfold addNeighborsToWeights
          rw [if_neg (by simp [hinc])]
          cases pointCloud with
          | none => rw [hmerge]
          | some meshes =>
            rw [addNeighborStep_fold_absent options meshes
              st.neighborDistances _ label hmerge]
            simp only []
            rw [if_pos hinc]
    · rw [if_neg hinc]
      cases hman : AssocMap.get st.selectionWeights label with
      | some mw =>
        rw [hman] at hmerge
        cases hprox : AssocMap.get s.proximityWeights label with
        | some pw =>
          rw [hprox] at hmerge
          exact hmerge
        | none =>
          rw [hprox] at hmerge
          exact hmerge
      | none =>
        rw [hman] at hmerge
        cases hprox : AssocMap.get s.proximityWeights label with
        | some pw =>
          rw [hprox] at hmerge
          exact hmerge
        | none =>
          rw [hprox] at hmerge
          rw [hmerge]
          cases pointCloud with
          | none => rfl
          | some meshes =>
            simp only []
            rw [if_neg hinc]

/-- Counterexample to C1 as stated: proximity mentions label "a" with
weight 1/5, the manual selection does not mention "a", and the neighbor
map holds index 0 (the mesh labelled "a") at distance 0, i.e. derived
weight 1.  The claimed max of the three sources is 1, but key presence
blocks the gap-fill and `getCombinedWeights` keeps 1/5.  (The state is
reachable: click with neighbors disabled, enable them, call
`recalculateNeighbors`, then update the proximity selection.) -/
theorem claim_C1_counterexample :
    AssocMap.get (getCombinedWeights (some [⟨0, "a", ⟨0, 0, 0⟩, []⟩])
      ⟨1, 1, 1, true⟩
      ⟨some ⟨[⟨1, "b", ⟨0, 0, 0⟩, []⟩], [("b", 1)], none, [(0, 0)]⟩,
        [⟨0, "a", ⟨0, 0, 0⟩, []⟩], [("a", 1/5)]⟩) "a" = some (1/5) ∧
    claimCombinedWeight (some [⟨0, "a", ⟨0, 0, 0⟩, []⟩]) ⟨1, 1, 1, true⟩
      ⟨some ⟨[⟨1, "b", ⟨0, 0, 0⟩, []⟩], [("b", 1)], none, [(0, 0)]⟩,
        [⟨0, "a", ⟨0, 0, 0⟩, []⟩], [("a", 1/5)]⟩ "a" = some 1 ∧
    ¬ (∀ l, AssocMap.get (getCombinedWeights (some [⟨0, "a", ⟨0, 0, 0⟩, []⟩])
        ⟨1, 1, 1, true⟩
        ⟨some ⟨[⟨1, "b", ⟨0, 0, 0⟩, []⟩], [("b", 1)], none, [(0, 0)]⟩,
          [⟨0, "a", ⟨0, 0, 0⟩, []⟩], [("a", 1/5)]⟩) l =
      claimCombinedWeight (some [⟨0, "a", ⟨0, 0, 0⟩, []⟩]) ⟨1, 1, 1, true⟩
        ⟨some ⟨[⟨1, "b", ⟨0, 0, 0⟩, []⟩], [("b", 1)], none, [(0, 0)]⟩,
          [⟨0, "a", ⟨0, 0, 0⟩, []⟩], [("a", 1/5)]⟩ l) := by
  have hcw : AssocMap.get [("a", (1 : ℚ)/5)] "a" = some (1/5) := by
    rw [AssocMap.get_cons, if_pos rfl]
  have hW : AssocMap.get [("b", (1 : ℚ))] "a" = none := by
    rw [AssocMap.get_cons, if_neg (by decide)]
    rfl
  have hnodup : (AssocMap.keys [("b", (1 : ℚ))]).Nodup := by
    simp [AssocMap.keys]
  have hmerged : AssocMap.get
      (List.foldl mergeManualWeight [("a", (1 : ℚ)/5)] [("b", (1 : ℚ))])
      "a" = some (1/5) := by
    rw [mergeFold_get [("b", (1 : ℚ))] [("a", (1 : ℚ)/5)] "a" hnodup, hW,
      hcw]
  have h1 : AssocMap.get (getCombinedWeights (some [⟨0, "a", ⟨0, 0, 0⟩, []⟩])
      ⟨1, 1, 1, true⟩
      ⟨some ⟨[⟨1, "b", ⟨0, 0, 0⟩, []⟩], [("b", 1)], none, [(0, 0)]⟩,
        [⟨0, "a", ⟨0, 0, 0⟩, []⟩], [("a", 1/5)]⟩) "a" = some (1/5) := by
    have heq : getCombinedWeights (some [⟨0, "a", ⟨0, 0, 0⟩, []⟩])
        ⟨1, 1, 1, true⟩
        ⟨some ⟨[⟨1, "b", ⟨0, 0, 0⟩, []⟩], [("b", 1)], none, [(0, 0)]⟩,
          [⟨0, "a", ⟨0, 0, 0⟩, []⟩], [("a", 1/5)]⟩ =
        addNeighborsToWeights ⟨1, 1, 1, true⟩
          (some [⟨0, "a", ⟨0, 0, 0⟩, []⟩]) [(0, 0)]
          (List.foldl mergeManualWeight [("a", (1 : ℚ)/5)]
            [("b", (1 : ℚ))]) := rfl
    rw [heq]
    exact addNeighborsToWeights_get_present _ _ _ _ _ _ hmerged
  have hfill : claimNeighborFill ⟨1, 1, 1, true⟩ [⟨0, "a", ⟨0, 0, 0⟩, []⟩]
      [(0, (0 : ℚ))] "a" = some 1 := by
    rw [claimNeighborFill_cons, if_pos (by rfl)]
    norm_num
  have h2 : claimCombinedWeight (some [⟨0, "a", ⟨0, 0, 0⟩, []⟩])
      ⟨1, 1, 1, true⟩
      ⟨some ⟨[⟨1, "b", ⟨0, 0, 0⟩, []⟩], [("b", 1)], none, [(0, 0)]⟩,
        [⟨0, "a", ⟨0, 0, 0⟩, []⟩], [("a", 1/5)]⟩ "a" = some 1 := by
    unfold claimCombinedWeight
    simp only [Option.some_bind]
    rw [hcw, hW, hfill]
    simp only [if_pos rfl, Option.getD_some, Option.getD_none]
    norm_num
  refine ⟨h1, h2, fun hall => ?_⟩
  have hinst := hall "a"
  rw [h1, h2] at hinst
  have hq : (1 / 5 : ℚ) = 1 := Option.some_inj.mp hinst
  norm_num at hq

/-- Witness for the amended C1 at the counterexample state: the combined
entry for "a" matches the corrected per-label specification. -/
theorem claim_C1_amended_witness :
    (∀ st, (⟨some ⟨[⟨1, "b", ⟨0, 0, 0⟩, []⟩], [("b", 1)], none, [(0, 0)]⟩,
        [⟨0, "a", ⟨0, 0, 0⟩, []⟩], [("a", 1/5)]⟩ :
        PointSelectorState).manualSelectionState = some st →
      (AssocMap.keys st.selectionWeights).Nodup) ∧
    AssocMap.get (getCombinedWeights (some [⟨0, "a", ⟨0, 0, 0⟩, []⟩])
        ⟨1, 1, 1, true⟩
        ⟨some ⟨[⟨1, "b", ⟨0, 0, 0⟩, []⟩], [("b", 1)], none, [(0, 0)]⟩,
          [⟨0, "a", ⟨0, 0, 0⟩, []⟩], [("a", 1/5)]⟩) "a" =
      combinedWeightSpec (some [⟨0, "a", ⟨0, 0, 0⟩, []⟩]) ⟨1, 1, 1, true⟩
        ⟨some ⟨[⟨1, "b", ⟨0, 0, 0⟩, []⟩], [("b", 1)], none, [(0, 0)]⟩,
          [⟨0, "a", ⟨0, 0, 0⟩, []⟩], [("a", 1/5)]⟩ "a" := by
  have hn : ∀ st, (⟨some ⟨[⟨1, "b", ⟨0, 0, 0⟩, []⟩], [("b", 1)], none,
        [(0, 0)]⟩, [⟨0, "a", ⟨0, 0, 0⟩, []⟩], [("a", 1/5)]⟩ :
        PointSelectorState).manualSelectionState = some st →
      (AssocMap.keys st.selectionWeights).Nodup := by
    intro st hst
    rcases Option.some_inj.mp hst with rfl
    simp [AssocMap.keys]
  exact ⟨hn, claim_C1_amended _ _ _ _ hn⟩

/-- Amended C3: restoring a preserved manual selection against a fresh
cloud yields a primary set whose label set is exactly the preserved labels
intersected with the labels present in the new cloud — provided that
intersection is non-empty.  When it is empty, `restoreManualSelection` is
a no-op and the previous (stale) manual selection state survives
unchanged, rather than becoming an empty selection. -/
theorem claim_C3_amended (findHDN : FindNeighborsFn)
    (options : SelectorOptions) (s : PointSelectorState)
    (preserved : PreservedManualSelection)
    (hpres : getPreservedManualSelection s = some preserved)
    (pc : List Mesh) :
    ((∃ m ∈ pc, m.label ∈ preserved.primaryLabels) →
      ∃ st2, (restoreManualSelection findHDN preserved pc options
          s).manualSelectionState = some st2 ∧
        ∀ l, l ∈ st2.primaryMeshes.map (fun m => m.label) ↔
          (l ∈ preserved.primaryLabels ∧ l ∈ pc.map (fun m => m.label))) ∧
    ((∀ m ∈ pc, m.label ∉ preserved.primaryLabels) →
      restoreManualSelection findHDN preserved pc options s = s) := by
  have hfst := restoreScan_fst preserved pc ([], none)
  rw [restoreManualSelection_eq]
  constructor
  · intro ⟨m, hm, hml⟩
    have hmem : m ∈ (pc.foldl (restoreScanStep preserved) ([], none)).1 := by
      rw [hfst]
      exact List.mem_append_right _
        (List.mem_filter.mpr ⟨hm, by simpa using hml⟩)
    have hne : ¬ (pc.foldl (restoreScanStep preserved) ([], none)).1.isEmpty
        := by
      intro hempty
      rw [List.isEmpty_iff] at hempty
      rw [hempty] at hmem
      exact List.not_mem_nil m hmem
    rw [if_neg hne]
    refine ⟨_, rfl, ?_⟩
    intro l
    simp only []
    rw [hfst]
    constructor
    · intro hl
      rcases List.mem_map.mp hl with ⟨q, hq, rfl⟩
      rcases List.mem_append.mp hq with habs | hqf
      · simp at habs
      · have := List.mem_filter.mp hqf
        exact ⟨by simpa using this.2, List.mem_map_of_mem _ this.1⟩
    · intro ⟨hl1, hl2⟩
      rcases List.mem_map.mp hl2 with ⟨q, hq, rfl⟩
      exact List.mem_map_of_mem _ (List.mem_append_right _
        (List.mem_filter.mpr ⟨hq, by simpa using hl1⟩))
  · intro hnone
    have hnil : (pc.foldl (restoreScanStep preserved) ([], none)).1 = [] := by
      rw [hfst, List.nil_append, List.filter_eq_nil_iff]
      intro m hm
      simpa using hnone m hm
    rw [if_pos (by rw [hnil]; rfl)]

/-- Counterexample to C3 as stated: a manual selection on label "a" is
preserved, the fresh cloud only carries label "b" (empty intersection),
and the restore leaves the stale selection — whose label set is still
{"a"}, not the claimed empty intersection — in place. -/
theorem claim_C3_counterexample :
    getPreservedManualSelection
        (⟨some ⟨[⟨0, "a", ⟨0, 0, 0⟩, []⟩], [("a", 1)],
            some ⟨0, "a", ⟨0, 0, 0⟩, []⟩, []⟩, [], []⟩ :
          PointSelectorState) =
      some ⟨["a"], some "a", [("a", 1)]⟩ ∧
    restoreManualSelection (fun _ _ _ => []) ⟨["a"], some "a", [("a", 1)]⟩
        [⟨1, "b", ⟨0, 0, 0⟩, []⟩] ⟨1, 1, 1, false⟩
        ⟨some ⟨[⟨0, "a", ⟨0, 0, 0⟩, []⟩], [("a", 1)],
          some ⟨0, "a", ⟨0, 0, 0⟩, []⟩, []⟩, [], []⟩ =
      ⟨some ⟨[⟨0, "a", ⟨0, 0, 0⟩, []⟩], [("a", 1)],
        some ⟨0, "a", ⟨0, 0, 0⟩, []⟩, []⟩, [], []⟩ ∧
    ∃ st2, (⟨some ⟨[⟨0, "a", ⟨0, 0, 0⟩, []⟩], [("a", 1)],
        some ⟨0, "a", ⟨0, 0, 0⟩, []⟩, []⟩, [], []⟩ :
        PointSelectorState).manualSelectionState = some st2 ∧
      "a" ∈ st2.primaryMeshes.map (fun m => m.label) := by
  refine ⟨rfl, ?_, ⟨_, rfl, by simp⟩⟩
  rw [restoreManualSelection_eq]
  rw [if_pos (by decide)]

/-- Witness for the amended C3: a preserved selection on "a", a fresh
cloud carrying only "b"; the hypothesis that the old state preserves to
the given record is discharged by computation. -/
theorem claim_C3_amended_witness :
    getPreservedManualSelection
        (⟨some ⟨[⟨0, "a", ⟨0, 0, 0⟩, []⟩], [("a", 1)],
            some ⟨0, "a", ⟨0, 0, 0⟩, []⟩, []⟩, [], []⟩ :
          PointSelectorState) =
      some ⟨["a"], some "a", [("a", 1)]⟩ ∧
    (((∃ m ∈ [(⟨1, "b", ⟨0, 0, 0⟩, []⟩ : Mesh)], m.label ∈
        (⟨["a"], some "a", [("a", 1)]⟩ :
          PreservedManualSelection).primaryLabels) →
      ∃ st2, (restoreManualSelection (fun _ _ _ => [])
          ⟨["a"], some "a", [("a", 1)]⟩ [⟨1, "b", ⟨0, 0, 0⟩, []⟩]
          ⟨1, 1, 1, false⟩
          ⟨some ⟨[⟨0, "a", ⟨0, 0, 0⟩, []⟩], [("a", 1)],
            some ⟨0, "a", ⟨0, 0, 0⟩, []⟩, []⟩, [], []⟩).manualSelectionState
          = some st2 ∧
        ∀ l, l ∈ st2.primaryMeshes.map (fun m => m.label) ↔
          (l ∈ (⟨["a"], some "a", [("a", 1)]⟩ :
              PreservedManualSelection).primaryLabels ∧
            l ∈ [(⟨1, "b", ⟨0, 0, 0⟩, []⟩ : Mesh)].map
              (fun m => m.label))) ∧
    ((∀ m ∈ [(⟨1, "b", ⟨0, 0, 0⟩, []⟩ : Mesh)], m.label ∉
        (⟨["a"], some "a", [("a", 1)]⟩ :
          PreservedManualSelection).primaryLabels) →
      restoreManualSelection (fun _ _ _ => [])
          ⟨["a"], some "a", [("a", 1)]⟩ [⟨1, "b", ⟨0, 0, 0⟩, []⟩]
          ⟨1, 1, 1, false⟩
          ⟨some ⟨[⟨0, "a", ⟨0, 0, 0⟩, []⟩], [("a", 1)],
            some ⟨0, "a", ⟨0, 0, 0⟩, []⟩, []⟩, [], []⟩ =
        ⟨some ⟨[⟨0, "a", ⟨0, 0, 0⟩, []⟩], [("a", 1)],
          some ⟨0, "a", ⟨0, 0, 0⟩, []⟩, []⟩, [], []⟩)) :=
  ⟨rfl, claim_C3_amended (fun _ _ _ => []) ⟨1, 1, 1, false⟩
    ⟨some ⟨[⟨0, "a", ⟨0, 0, 0⟩, []⟩], [("a", 1)],
      some ⟨0, "a", ⟨0, 0, 0⟩, []⟩, []⟩, [], []⟩
    ⟨["a"], some "a", [("a", 1)]⟩ rfl [⟨1, "b", ⟨0, 0, 0⟩, []⟩]⟩

theorem selectTail_of_length_eq (rng : ℕ → ℚ) (pointCount : ℕ)
    (all1 s1 : List (String × List ℚ)) (k1 : ℕ)
    (h : s1.length = pointCount) :
    selectTail rng pointCount all1 s1 k1 = (s1, k1) := by
  unfold selectTail
  rw [if_neg (by omega), if_neg (by omega)]

theorem selectTail_of_lt (rng : ℕ → ℚ) (pointCount : ℕ)
    (all1 s1 : List (String × List ℚ)) (k1 : ℕ)
    (h : s1.length < pointCount) :
    selectTail rng pointCount all1 s1 k1 =
      (s1 ++ (shuffleEmbeddings rng
          ((all1.filter (fun e => ! (s1.map Prod.fst).contains e.1)).take
            (pointCount - s1.length)) k1).1,
        (shuffleEmbeddings rng
          ((all1.filter (fun e => ! (s1.map Prod.fst).contains e.1)).take
            (pointCount - s1.length)) k1).2) := by
  unfold selectTail
  rw [if_neg (by omega), if_pos h]

theorem generateSelected_of_empty (rng : ℕ → ℚ) (k pointCount : ℕ)
    (cache : List (String × List ℚ)) :
    generateSelectedEmbeddings rng k pointCount cache [] =
      ((shuffleEmbeddings rng cache k).1.take pointCount,
        (shuffleEmbeddings rng cache k).2) := by
  unfold generateSelectedEmbeddings
  rw [if_pos (show ([] : List (String × List ℚ)).length = 0 from rfl)]
  show selectTail rng pointCount (shuffleEmbeddings rng cache k).1
      ((shuffleEmbeddings rng cache k).1.take pointCount)
      (shuffleEmbeddings rng cache k).2 = _
  generalize shuffleEmbeddings rng cache k = sh
  by_cases hle : pointCount ≤ sh.1.length
  · have hlen : (sh.1.take pointCount).length = pointCount := by
      rw [List.length_take]; omega
    rw [selectTail_of_length_eq _ _ _ _ _ hlen]
  · push_neg at hle
    have htake : sh.1.take pointCount = sh.1 :=
      List.take_of_length_le (le_of_lt hle)
    rw [htake, selectTail_of_lt _ _ _ _ _ hle]
    have hfil : sh.1.filter
        (fun e => ! (sh.1.map Prod.fst).contains e.1) = [] := by
      rw [List.filter_eq_nil_iff]
      intro e he
      have hc : e.1 ∈ sh.1.map Prod.fst := List.mem_map_of_mem Prod.fst he
      simp [hc]
    rw [hfil]
    simp [shuffleEmbeddings, shuffleAux]

/-- Amended C6: the selection-set logic of `generatePointCloudData`.  A
previous selection whose size equals `pointCount` is reused verbatim with
the rng untouched; a larger one is truncated to its front slice with no
re-shuffle; an empty one is replaced by the first `pointCount` entries of
the seeded shuffle of the whole cache.  A too-small selection, however,
is extended with the FIRST missing-count unused entries of the cache in
cache order, which are then shuffled among themselves — the shuffle
chooses only the order of the appended items, not which items are drawn
from the unused pool. -/
theorem claim_C6_amended (rng : ℕ → ℚ) (k pointCount : ℕ)
    (cache current : List (String × List ℚ)) :
    (current ≠ [] → current.length = pointCount →
      generateSelectedEmbeddings rng k pointCount cache current =
        (current, k)) ∧
    (pointCount < current.length →
      generateSelectedEmbeddings rng k pointCount cache current =
        (current.take pointCount, k)) ∧
    (current ≠ [] → current.length < pointCount →
      generateSelectedEmbeddings rng k pointCount cache current =
        (current ++ (shuffleEmbeddings rng
            ((cache.filter (fun e =>
              ! (current.map Prod.fst).contains e.1)).take
              (pointCount - current.length)) k).1,
          (shuffleEmbeddings rng
            ((cache.filter (fun e =>
              ! (current.map Prod.fst).contains e.1)).take
              (pointCount - current.length)) k).2)) ∧
    (current = [] →
      generateSelectedEmbeddings rng k pointCount cache current =
        ((shuffleEmbeddings rng cache k).1.take pointCount,
          (shuffleEmbeddings rng cache k).2)) := by
  refine ⟨?_, ?_, ?_, ?_⟩
  · intro hne hlen
    have h0 : ¬ current.length = 0 := by
      intro h; exact hne (List.length_eq_zero.mp h)
    unfold generateSelectedEmbeddings
    rw [if_neg h0, selectTail_of_length_eq _ _ _ _ _ hlen]
  · intro h
    have h0 : ¬ current.length = 0 := by omega
    unfold generateSelectedEmbeddings
    rw [if_neg h0]
    unfold selectTail
    rw [if_pos h]
  · intro hne hlt
    have h0 : ¬ current.length = 0 := by
      intro h; exact hne (List.length_eq_zero.mp h)
    unfold generateSelectedEmbeddings
    rw [if_neg h0, selectTail_of_lt _ _ _ _ _ hlt]
  · intro he
    subst he
    exact generateSelected_of_empty rng k pointCount cache

/-- Counterexample to C6 as stated: cache `[a, b, c]`, previous selection
`[a]`, requested count 2.  The source takes the first unused cache entry
`b` (only shuffling the one-element slice), while the claimed
draw-via-shuffle from the unused pool `[b, c]` selects `c` whenever the
first rng value falls below 1/2 (here the stream is constantly 0).  The
selected label sets — not merely their order — differ. -/
theorem claim_C6_counterexample :
    generateSelectedEmbeddings (fun _ => 0) 0 2
        [("a", []), ("b", []), ("c", [])] [("a", [])] =
      ([("a", []), ("b", [])], 0) ∧
    specGenerateSelectedEmbeddings (fun _ => 0) 0 2
        [("a", []), ("b", []), ("c", [])] [("a", [])] =
      ([("a", []), ("c", [])], 1) ∧
    (generateSelectedEmbeddings (fun _ => 0) 0 2
        [("a", []), ("b", []), ("c", [])] [("a", [])]).1.map Prod.fst ≠
      (specGenerateSelectedEmbeddings (fun _ => 0) 0 2
        [("a", []), ("b", []), ("c", [])] [("a", [])]).1.map Prod.fst := by
  have h1 : generateSelectedEmbeddings (fun _ => 0) 0 2
      [("a", []), ("b", []), ("c", [])] [("a", [])] =
      ([("a", []), ("b", [])], 0) := by
    simp [generateSelectedEmbeddings, selectTail, shuffleEmbeddings,
      shuffleAux, listSwap, List.filter]
  have h2 : specGenerateSelectedEmbeddings (fun _ => 0) 0 2
      [("a", []), ("b", []), ("c", [])] [("a", [])] =
      ([("a", []), ("c", [])], 1) := by
    simp [specGenerateSelectedEmbeddings, specSelectTail, shuffleEmbeddings,
      shuffleAux, listSwap, List.filter]
  refine ⟨h1, h2, ?_⟩
  rw [h1, h2]
  simp

/-- Witness for the amended C6 at the truncation branch: a three-entry
previous selection against a requested count of two is cut to its front
slice with the rng cursor untouched. -/
theorem claim_C6_amended_witness :
    (2 : ℕ) < ([("a", ([] : List ℚ)), ("b", []), ("c", [])]).length ∧
    generateSelectedEmbeddings (fun _ => 0) 0 2 []
        [("a", []), ("b", []), ("c", [])] =
      ([("a", ([] : List ℚ)), ("b", [])], 0) := by
  have h := (claim_C6_amended (fun _ => 0) 0 2 []
    [("a", []), ("b", []), ("c", [])]).2.1 (by decide)
  refine ⟨by decide, ?_⟩
  rw [h]
  simp

theorem labelCandidate_spec {env : LabelEnv} {ho : List Mesh} {m : Mesh}
    {p : Mesh × ℚ} (h : labelCandidate env ho m = some p) :
    p.1 = m ∧
    p.2 = env.sqrtFn (m.position.distanceToSquared env.cameraPosition) ∧
    m ∉ ho ∧ env.hasParent m = true ∧ env.inFrustum m.position = true ∧
    isOccluded env m = false := by
  simp only [labelCandidate] at h
  split at h
  case isTrue hmem => exact absurd h (by simp)
  case isFalse hmem =>
  split at h
  case isFalse hpar => exact absurd h (by simp)
  case isTrue hpar =>
  split at h
  case isFalse hfru => exact absurd h (by simp)
  case isTrue hfru =>
  split at h
  case isFalse hcone => exact absurd h (by simp)
  case isTrue hcone =>
  split at h
  case isFalse haxis => exact absurd h (by simp)
  case isTrue haxis =>
  split at h
  case isTrue hocc => exact absurd h (by simp)
  case isFalse hocc =>
  rcases Option.some_inj.mp h with rfl
  exact ⟨rfl, rfl, hmem, hpar, hfru, by simpa using hocc⟩

/-- C7: in a non-throttled run of `updateLabelVisibilities`, the new
visible set is exactly the nearest `maxInViewLabels` sorted candidates
plus the non-occluded highlighted meshes; the candidate ranking is a
distance-ascending permutation of the surviving candidates, every kept
candidate is at most as far as every dropped one, every visible
non-highlighted mesh passed all candidate tests and made the budget, at
most `maxInViewLabels` non-highlighted meshes are visible, and a
highlighted mesh is visible exactly when it is not occluded, with no
count limit. -/
theorem claim_C7 (env : LabelEnv)
    (pointMeshes highlightedObjects prevVisible : List Mesh)
    (frameCount labelUpdateThrottle maxInViewLabels : ℕ) (force : Bool)
    (hrun : force = true ∨
      (labelUpdateThrottle ≠ 0 ∧ frameCount % labelUpdateThrottle = 0)) :
    (updateLabelVisibilities env pointMeshes highlightedObjects frameCount
        labelUpdateThrottle maxInViewLabels force prevVisible =
      ((labelSorted env pointMeshes highlightedObjects).take
          maxInViewLabels).map Prod.fst ++
        highlightedObjects.filter (fun m => ! isOccluded env m)) ∧
    ((labelSorted env pointMeshes highlightedObjects).Sorted distLE ∧
      (labelSorted env pointMeshes highlightedObjects).Perm
        (labelCandidates env pointMeshes highlightedObjects)) ∧
    (∀ p ∈ (labelSorted env pointMeshes highlightedObjects).take
        maxInViewLabels,
      ∀ q ∈ (labelSorted env pointMeshes highlightedObjects).drop
        maxInViewLabels, p.2 ≤ q.2) ∧
    (∀ m ∈ updateLabelVisibilities env pointMeshes highlightedObjects
        frameCount labelUpdateThrottle maxInViewLabels force prevVisible,
      m ∉ highlightedObjects →
        ∃ d, labelCandidate env highlightedObjects m = some (m, d) ∧
          (m, d) ∈ (labelSorted env pointMeshes highlightedObjects).take
            maxInViewLabels) ∧
    ((updateLabelVisibilities env pointMeshes highlightedObjects frameCount
        labelUpdateThrottle maxInViewLabels force prevVisible).filter
        (fun m => ! highlightedObjects.contains m)).length ≤
      maxInViewLabels ∧
    (∀ m ∈ highlightedObjects,
      (m ∈ updateLabelVisibilities env pointMeshes highlightedObjects
          frameCount labelUpdateThrottle maxInViewLabels force prevVisible ↔
        isOccluded env m = false)) := by
  have hthr : ¬ (force = false ∧
      (labelUpdateThrottle = 0 ∨ frameCount % labelUpdateThrottle ≠ 0)) := by
    rcases hrun with hf | ⟨ht, hm⟩
    · simp [hf]
    · rintro ⟨h1, h2 | h2⟩
      · exact ht h2
      · exact h2 hm
  have hres : updateLabelVisibilities env pointMeshes highlightedObjects
      frameCount labelUpdateThrottle maxInViewLabels force prevVisible =
      ((labelSorted env pointMeshes highlightedObjects).take
          maxInViewLabels).map Prod.fst ++
        highlightedObjects.filter (fun m => ! isOccluded env m) := by
    unfold updateLabelVisibilities
    rw [if_neg hthr]
  have hsorted : (labelSorted env pointMeshes highlightedObjects).Sorted
      distLE := List.sorted_insertionSort distLE _
  have hperm : (labelSorted env pointMeshes highlightedObjects).Perm
      (labelCandidates env pointMeshes highlightedObjects) :=
    List.perm_insertionSort distLE _
  have hcand : ∀ p ∈ (labelSorted env pointMeshes highlightedObjects).take
      maxInViewLabels, labelCandidate env highlightedObjects p.1 = some p := by
    intro p hp
    have hps : p ∈ labelSorted env pointMeshes highlightedObjects :=
      List.take_subset _ _ hp
    have hpc : p ∈ labelCandidates env pointMeshes highlightedObjects :=
      hperm.subset hps
    rcases List.mem_filterMap.mp hpc with ⟨a, _, hla⟩
    have hfst := (labelCandidate_spec hla).1
    rwa [← hfst] at hla
  refine ⟨hres, ⟨hsorted, hperm⟩, ?_, ?_, ?_, ?_⟩
  · intro p hp q hq
    have hpw : ((labelSorted env pointMeshes highlightedObjects).take
        maxInViewLabels ++ (labelSorted env pointMeshes
        highlightedObjects).drop maxInViewLabels).Pairwise distLE := by
      rw [List.take_append_drop]
      exact hsorted
    exact (List.pairwise_append.mp hpw).2.2 p hp q hq
  · intro m hm hnotho
    rw [hres] at hm
    rcases List.mem_append.mp hm with hin | hfil
    · rcases List.mem_map.mp hin with ⟨p, hp, rfl⟩
      refine ⟨p.2, ?_, ?_⟩
      · exact hcand p hp
      · exact hp
    · exact absurd (List.mem_of_mem_filter hfil) hnotho
  · rw [hres, List.filter_append, List.length_append]
    have h2 : (highlightedObjects.filter
        (fun m => ! isOccluded env m)).filter
        (fun m => ! highlightedObjects.contains m) = [] := by
      rw [List.filter_eq_nil_iff]
      intro a ha
      have hmem : a ∈ highlightedObjects := List.mem_of_mem_filter ha
      simp [hmem]
    rw [h2]
    simp only [List.length_nil, Nat.add_zero]
    calc (List.filter _ (((labelSorted env pointMeshes
          highlightedObjects).take maxInViewLabels).map Prod.fst)).length
        ≤ (((labelSorted env pointMeshes highlightedObjects).take
          maxInViewLabels).map Prod.fst).length := List.length_filter_le _ _
      _ ≤ maxInViewLabels := by
          rw [List.length_map]
          exact List.length_take_le _ _
  · intro m hmho
    constructor
    · intro hmem
      rw [hres] at hmem
      rcases List.mem_append.mp hmem with hin | hfil
      · exfalso
        rcases List.mem_map.mp hin with ⟨p, hp, hpm⟩
        have hc := hcand p hp
        rw [hpm] at hc
        exact (labelCandidate_spec hc).2.2.1 hmho
      · have := (List.mem_filter.mp hfil).2
        simpa using this
    · intro hocc
      rw [hres]
      exact List.mem_append_right _
        (List.mem_filter.mpr ⟨hmho, by simp [hocc]⟩)

/-- Witness for C7: a single in-cone, in-frustum, unoccluded mesh, no
highlights, frame 0 with throttle 1 (a non-throttled frame without
forcing). -/
theorem claim_C7_witness :
    ((false = true) ∨ ((1 : ℕ) ≠ 0 ∧ 0 % 1 = 0)) ∧
    updateLabelVisibilities ⟨fun _ => true, fun _ => none, id, fun _ => true,
        ⟨0, 0, 0⟩, ⟨0, 0, 0⟩, ⟨1, 0, 0⟩, 1, 10⟩
        [⟨0, "p", ⟨1, 0, 0⟩, []⟩] [] 0 1 5 false [] =
      ((labelSorted ⟨fun _ => true, fun _ => none, id, fun _ => true,
          ⟨0, 0, 0⟩, ⟨0, 0, 0⟩, ⟨1, 0, 0⟩, 1, 10⟩
          [⟨0, "p", ⟨1, 0, 0⟩, []⟩] []).take 5).map Prod.fst ++
        List.filter (fun m => ! isOccluded ⟨fun _ => true, fun _ => none, id,
          fun _ => true, ⟨0, 0, 0⟩, ⟨0, 0, 0⟩, ⟨1, 0, 0⟩, 1, 10⟩ m) [] := by
  have hr : (false = true) ∨ ((1 : ℕ) ≠ 0 ∧ 0 % 1 = 0) :=
    Or.inr ⟨by decide, rfl⟩
  exact ⟨hr, (claim_C7 _ _ _ _ _ _ _ _ hr).1⟩
